import Mathlib

/-!
# Shallow embedding of the sentenceeditor ordered-hierarchy engine

This file embeds the persistence and reordering operations of the
`dld2517/sentenceeditor` repository (SQLite-backed outline editor) and
verifies the specification's claims about them.

Data model: four tables (`projects`, `major_categories`, `subcategories`,
`sentences`) are modelled as lists of row structures; `AUTOINCREMENT`
primary keys are modelled with per-table counters that never decrease.
`sort_order` columns are `Int` (SQLite INTEGER).  The schema created by
`Database.initialize` in `database_utils.py` carries the constraints
`UNIQUE(project_id, name)` on `major_categories`,
`UNIQUE(major_category_id, name)` on `subcategories` and `UNIQUE(name)` on
`projects`; a statement that would violate one of them raises
`sqlite3.IntegrityError` in SQLite.  Where the Python code catches that
error the embedding returns the caught-path value; where the code does not
catch it (the `UPDATE` statements inside the move operations) the embedding
returns an explicit error value and leaves the state unchanged, which is
what the raised exception does to the database (the failing statement is
the first mutating statement of its branch).
-/

/-- A row of the `projects` table (timestamps are not modelled; no claim
mentions them). -/
structure ProjectRow where
  id : Nat
  name : String
deriving DecidableEq

/-- A row of the `major_categories` (headings) table. -/
structure CatRow where
  id : Nat
  projectId : Nat
  name : String
  sortOrder : Int
deriving DecidableEq

/-- A row of the `subcategories` (subheadings) table. -/
structure SubRow where
  id : Nat
  mcId : Nat
  name : String
  sortOrder : Int
deriving DecidableEq

/-- A row of the `sentences` table. -/
structure SentRow where
  id : Nat
  subId : Nat
  content : String
  sortOrder : Int
deriving DecidableEq

/-- The database state: the four tables plus the next `AUTOINCREMENT`
value of each table. -/
structure DB where
  projects : List ProjectRow
  cats : List CatRow
  subs : List SubRow
  sents : List SentRow
  nextProjectId : Nat
  nextCatId : Nat
  nextSubId : Nat
  nextSentId : Nat
deriving DecidableEq

/-- The freshly created database: empty tables, all id sequences at 1
(SQLite assigns 1 to the first row of an `AUTOINCREMENT` table). -/
def DB.empty : DB := ⟨[], [], [], [], 1, 1, 1, 1⟩

/-- `COALESCE(MAX(x), 0)`: the maximum of a list of integers, `0` when the
list is empty. -/
def sqlMax : List Int → Int
  | [] => 0
  | x :: xs => xs.foldl max x

namespace Database

/-- `Database.create_project` (database_utils.py): `INSERT INTO projects`;
`UNIQUE(name)` violation is caught and `None` is returned. -/
def create_project (db : DB) (name : String) : DB × Option Nat :=
  if db.projects.any (fun p => p.name == name) then (db, none)
  else
    ({ db with
        projects := db.projects ++ [⟨db.nextProjectId, name⟩],
        nextProjectId := db.nextProjectId + 1 },
      some db.nextProjectId)

/-- `Database.delete_project`: `DELETE FROM projects WHERE id = ?` with the
schema's `ON DELETE CASCADE` chain projects → major_categories →
subcategories → sentences. -/
def delete_project (db : DB) (pid : Nat) : DB :=
  let deadCats := db.cats.filter (fun c => c.projectId == pid)
  let deadSubs := db.subs.filter (fun s => deadCats.any (fun c => c.id == s.mcId))
  { db with
      projects := db.projects.filter (fun p => p.id != pid),
      cats := db.cats.filter (fun c => c.projectId != pid),
      subs := db.subs.filter (fun s => !(deadCats.any (fun c => c.id == s.mcId))),
      sents := db.sents.filter (fun x => !(deadSubs.any (fun s => s.id == x.subId))) }

/-- `Database.create_major_category`: reads `COALESCE(MAX(sort_order),0)+1`
for the project, inserts; `UNIQUE(project_id, name)` violation is caught
and `None` is returned. -/
def create_major_category (db : DB) (pid : Nat) (name : String) : DB × Option Nat :=
  let sortOrder := sqlMax ((db.cats.filter (fun c => c.projectId == pid)).map (·.sortOrder)) + 1
  if db.cats.any (fun c => c.projectId == pid && c.name == name) then (db, none)
  else
    ({ db with
        cats := db.cats ++ [⟨db.nextCatId, pid, name, sortOrder⟩],
        nextCatId := db.nextCatId + 1 },
      some db.nextCatId)

/-- `Database.update_major_category_name`: `UPDATE ... SET name = ? WHERE
id = ?`; a `UNIQUE(project_id, name)` violation (another heading of the
same project already named `new_name`) is caught and `False` returned. -/
def update_major_category_name (db : DB) (mcId : Nat) (newName : String) : DB × Bool :=
  if db.cats.any (fun c => c.id == mcId &&
      db.cats.any (fun d => d.id != c.id && d.projectId == c.projectId && d.name == newName)) then
    (db, false)
  else
    ({ db with cats := db.cats.map (fun c => if c.id == mcId then { c with name := newName } else c) },
      true)

/-- `Database.move_major_category`.  Cross-project: the heading is given
`MAX(sort_order)+1` in the target project and the source project is
compacted; the `UPDATE` raises an uncaught `IntegrityError` (modelled as
result `none`, no state change) when the target project already has a
heading of the same name.  Same project: the intervening range is shifted
and the heading is written to `target_sort_order`; equal positions are a
no-op. -/
def move_major_category (db : DB) (mcId targetPid : Nat) (targetSort : Int) :
    DB × Option Bool :=
  match db.cats.find? (fun c => c.id == mcId) with
  | none => (db, some false)
  | some row =>
    if row.projectId ≠ targetPid then
      let newSort := sqlMax ((db.cats.filter (fun c => c.projectId == targetPid)).map (·.sortOrder)) + 1
      if db.cats.any (fun c => c.id != mcId && c.projectId == targetPid && c.name == row.name) then
        (db, none)
      else
        let cats1 := db.cats.map (fun c =>
          if c.id == mcId then { c with projectId := targetPid, sortOrder := newSort } else c)
        let cats2 := cats1.map (fun c =>
          if c.projectId == row.projectId && c.sortOrder > row.sortOrder then
            { c with sortOrder := c.sortOrder - 1 } else c)
        ({ db with cats := cats2 }, some true)
    else
      if targetSort ≠ row.sortOrder then
        let cats1 :=
          if targetSort < row.sortOrder then
            db.cats.map (fun c =>
              if c.projectId == row.projectId && c.sortOrder ≥ targetSort && c.sortOrder < row.sortOrder then
                { c with sortOrder := c.sortOrder + 1 } else c)
          else
            db.cats.map (fun c =>
              if c.projectId == row.projectId && c.sortOrder > row.sortOrder && c.sortOrder ≤ targetSort then
                { c with sortOrder := c.sortOrder - 1 } else c)
        let cats2 := cats1.map (fun c => if c.id == mcId then { c with sortOrder := targetSort } else c)
        ({ db with cats := cats2 }, some true)
      else
        (db, some true)

/-- `Database.create_subcategory`.  Blank name: return the existing blank
subheading's id when one exists, otherwise shift the whole group up by one
and insert at position 1.  Non-blank name: `MAX(sort_order)+1`;
`UNIQUE(major_category_id, name)` violation is caught and `None`
returned. -/
def create_subcategory (db : DB) (mcId : Nat) (name : String) : DB × Option Nat :=
  if name == "" then
    match db.subs.find? (fun s => s.mcId == mcId && s.name == "") with
    | some existing => (db, some existing.id)
    | none =>
      let subs1 := db.subs.map (fun s =>
        if s.mcId == mcId then { s with sortOrder := s.sortOrder + 1 } else s)
      ({ db with
          subs := subs1 ++ [⟨db.nextSubId, mcId, "", 1⟩],
          nextSubId := db.nextSubId + 1 },
        some db.nextSubId)
  else
    let sortOrder := sqlMax ((db.subs.filter (fun s => s.mcId == mcId)).map (·.sortOrder)) + 1
    if db.subs.any (fun s => s.mcId == mcId && s.name == name) then (db, none)
    else
      ({ db with
          subs := db.subs ++ [⟨db.nextSubId, mcId, name, sortOrder⟩],
          nextSubId := db.nextSubId + 1 },
        some db.nextSubId)

/-- `Database.update_subcategory_name`: like the heading rename, with the
`UNIQUE(major_category_id, name)` constraint. -/
def update_subcategory_name (db : DB) (subId : Nat) (newName : String) : DB × Bool :=
  if db.subs.any (fun s => s.id == subId &&
      db.subs.any (fun d => d.id != s.id && d.mcId == s.mcId && d.name == newName)) then
    (db, false)
  else
    ({ db with subs := db.subs.map (fun s => if s.id == subId then { s with name := newName } else s) },
      true)

/-- `Database.move_subcategory`: same shape as `move_major_category` one
level down. -/
def move_subcategory (db : DB) (subId targetMcId : Nat) (targetSort : Int) :
    DB × Option Bool :=
  match db.subs.find? (fun s => s.id == subId) with
  | none => (db, some false)
  | some row =>
    if row.mcId ≠ targetMcId then
      let newSort := sqlMax ((db.subs.filter (fun s => s.mcId == targetMcId)).map (·.sortOrder)) + 1
      if db.subs.any (fun s => s.id != subId && s.mcId == targetMcId && s.name == row.name) then
        (db, none)
      else
        let subs1 := db.subs.map (fun s =>
          if s.id == subId then { s with mcId := targetMcId, sortOrder := newSort } else s)
        let subs2 := subs1.map (fun s =>
          if s.mcId == row.mcId && s.sortOrder > row.sortOrder then
            { s with sortOrder := s.sortOrder - 1 } else s)
        ({ db with subs := subs2 }, some true)
    else
      if targetSort ≠ row.sortOrder then
        let subs1 :=
          if targetSort < row.sortOrder then
            db.subs.map (fun s =>
              if s.mcId == row.mcId && s.sortOrder ≥ targetSort && s.sortOrder < row.sortOrder then
                { s with sortOrder := s.sortOrder + 1 } else s)
          else
            db.subs.map (fun s =>
              if s.mcId == row.mcId && s.sortOrder > row.sortOrder && s.sortOrder ≤ targetSort then
                { s with sortOrder := s.sortOrder - 1 } else s)
        let subs2 := subs1.map (fun s => if s.id == subId then { s with sortOrder := targetSort } else s)
        ({ db with subs := subs2 }, some true)
      else
        (db, some true)

/-- `Database.add_sentence`: append with `COALESCE(MAX(sort_order),0)+1`. -/
def add_sentence (db : DB) (subId : Nat) (content : String) : DB × Nat :=
  let sortOrder := sqlMax ((db.sents.filter (fun x => x.subId == subId)).map (·.sortOrder)) + 1
  ({ db with
      sents := db.sents ++ [⟨db.nextSentId, subId, content, sortOrder⟩],
      nextSentId := db.nextSentId + 1 },
    db.nextSentId)

/-- `Database.update_sentence`: in-place content update. -/
def update_sentence (db : DB) (sid : Nat) (content : String) : DB :=
  { db with sents := db.sents.map (fun x => if x.id == sid then { x with content := content } else x) }

/-- `Database.delete_sentence`: delete the row, then decrement the
`sort_order` of every later sibling of the owning subheading. -/
def delete_sentence (db : DB) (sid : Nat) : DB × Bool :=
  match db.sents.find? (fun x => x.id == sid) with
  | none => (db, false)
  | some row =>
    let sents1 := db.sents.filter (fun x => x.id != sid)
    let sents2 := sents1.map (fun x =>
      if x.subId == row.subId && x.sortOrder > row.sortOrder then
        { x with sortOrder := x.sortOrder - 1 } else x)
    ({ db with sents := sents2 }, true)

/-- `Database.move_sentence`: reassign to the target subheading at
`MAX(sort_order)+1`, then decrement the later siblings of the source
subheading. -/
def move_sentence (db : DB) (sid targetSub : Nat) : DB × Bool :=
  match db.sents.find? (fun x => x.id == sid) with
  | none => (db, false)
  | some row =>
    let targetSort := sqlMax ((db.sents.filter (fun x => x.subId == targetSub)).map (·.sortOrder)) + 1
    let sents1 := db.sents.map (fun x =>
      if x.id == sid then { x with subId := targetSub, sortOrder := targetSort } else x)
    let sents2 := sents1.map (fun x =>
      if x.subId == row.subId && x.sortOrder > row.sortOrder then
        { x with sortOrder := x.sortOrder - 1 } else x)
    ({ db with sents := sents2 }, true)

/-- `Database.copy_sentence`: read the content, append it to the target via
`add_sentence`. -/
def copy_sentence (db : DB) (sid targetSub : Nat) : DB × Bool :=
  match db.sents.find? (fun x => x.id == sid) with
  | none => (db, false)
  | some row => ((add_sentence db targetSub row.content).1, true)

end Database

/-- One row of the `Database.get_all_lines` query (the nine selected
columns, in order). -/
structure LineRow where
  sid : Nat
  mcId : Nat
  mcName : String
  scId : Nat
  scName : String
  content : String
  mcSort : Int
  scSort : Int
  sSort : Int
deriving DecidableEq

/-- Placeholder row used for (unreachable) out-of-bounds list access. -/
def defaultLineRow : LineRow := ⟨0, 0, "", 0, "", "", 0, 0, 0⟩

/-- The `ORDER BY mc.sort_order, sc.sort_order, s.sort_order` comparison as
a boolean total preorder on joined rows. -/
def lineLe (a b : LineRow) : Bool :=
  decide (a.mcSort < b.mcSort ∨ (a.mcSort = b.mcSort ∧
    (a.scSort < b.scSort ∨ (a.scSort = b.scSort ∧ a.sSort ≤ b.sSort))))

/-- Strict version of the `ORDER BY` key comparison. -/
def lineLt (a b : LineRow) : Prop :=
  a.mcSort < b.mcSort ∨ (a.mcSort = b.mcSort ∧
    (a.scSort < b.scSort ∨ (a.scSort = b.scSort ∧ a.sSort < b.sSort)))

/-- The sort key of a joined row. -/
def lineKey (r : LineRow) : Int × Int × Int := (r.mcSort, r.scSort, r.sSort)

namespace Database

/-- The `FROM sentences s JOIN subcategories sc ON s.subcategory_id = sc.id
JOIN major_categories mc ON sc.major_category_id = mc.id WHERE
mc.project_id = ?` part of `Database.get_all_lines`. -/
def joined_lines (db : DB) (pid : Nat) : List LineRow :=
  db.sents.flatMap fun s =>
    (db.subs.filter (fun sc => sc.id == s.subId)).flatMap fun sc =>
      (db.cats.filter (fun mc => mc.id == sc.mcId && mc.projectId == pid)).map fun mc =>
        ⟨s.id, mc.id, mc.name, sc.id, sc.name, s.content, mc.sortOrder, sc.sortOrder, s.sortOrder⟩

/-- `Database.get_all_lines`: the join ordered by
`(mc.sort_order, sc.sort_order, s.sort_order)`. -/
def get_all_lines (db : DB) (pid : Nat) : List LineRow :=
  (joined_lines db pid).mergeSort lineLe

/-- `Database.insert_sentence`: resolve the 1-based line number through
`get_all_lines` (returning `False`, modelled `none`, when out of range),
shift the target subheading's sentences at or after the target's
`sort_order` up by one, and insert the new sentence at the target's
position. -/
def insert_sentence (db : DB) (targetLineNum : Int) (content : String) (pid : Nat) :
    DB × Option Nat :=
  let lines := get_all_lines db pid
  if targetLineNum < 1 ∨ (lines.length : Int) < targetLineNum then (db, none)
  else
    let target := lines.getD (targetLineNum.toNat - 1) defaultLineRow
    let subId := target.scId
    let targetSort := target.sSort
    let sents1 := db.sents.map (fun x =>
      if x.subId == subId && x.sortOrder ≥ targetSort then
        { x with sortOrder := x.sortOrder + 1 } else x)
    ({ db with
        sents := sents1 ++ [⟨db.nextSentId, subId, content, targetSort⟩],
        nextSentId := db.nextSentId + 1 },
      some db.nextSentId)

end Database

namespace OutlineEditor

/-- `OutlineEditor.delete_sentence` (outline_editor.py, lines 285-289):
`DELETE FROM sentences WHERE id = ?` and nothing else — no renumbering of
the remaining siblings. -/
def delete_sentence (db : DB) (sid : Nat) : DB × Bool :=
  ({ db with sents := db.sents.filter (fun x => x.id != sid) }, true)

end OutlineEditor

namespace SentenceMaintenance

/-- `SentenceMaintenance.move_sentence` (sentence_maintenance.py, lines
133-171): reassign the sentence to the target subheading at
`MAX(sort_order)+1`, then renumber the whole source group with
`sort_order = COUNT(* WHERE same subcategory AND id <= this id)` — i.e. by
ascending `id`, not by the previous ordering. -/
def move_sentence (db : DB) (sid targetSub : Nat) : DB × Bool :=
  match db.sents.find? (fun x => x.id == sid) with
  | none => (db, false)
  | some row =>
    let oldSub := row.subId
    let sortOrder := sqlMax ((db.sents.filter (fun x => x.subId == targetSub)).map (·.sortOrder)) + 1
    let sents1 := db.sents.map (fun x =>
      if x.id == sid then { x with subId := targetSub, sortOrder := sortOrder } else x)
    let sents2 := sents1.map (fun x =>
      if x.subId == oldSub then
        { x with sortOrder := Int.ofNat (sents1.countP (fun y => y.subId == x.subId && y.id ≤ x.id)) }
      else x)
    ({ db with sents := sents2 }, true)

end SentenceMaintenance

/-- Fresh-id copies of a list of sentence rows, reattached to subheading
`target`, preserving `content` and `sort_order`; ids are assigned
sequentially from `startId`. -/
def copySentList : List SentRow → Nat → Nat → List SentRow
  | [], _, _ => []
  | x :: rest, startId, target =>
    ⟨startId, target, x.content, x.sortOrder⟩ :: copySentList rest (startId + 1) target

/-- Fresh-id copies of a list of subheading rows (reattached to heading
`cat`, preserving `name` and `sort_order`) together with fresh-id copies of
each one's sentences, preserving relative order throughout. -/
def copySubsWithSents (db : DB) : List SubRow → Nat → Nat → Nat → List SubRow × List SentRow
  | [], _, _, _ => ([], [])
  | s :: rest, subStart, sentStart, cat =>
    let mySents := db.sents.filter (fun x => x.subId == s.id)
    let copied := copySentList mySents sentStart subStart
    let restPair := copySubsWithSents db rest (subStart + 1) (sentStart + mySents.length) cat
    (⟨subStart, cat, s.name, s.sortOrder⟩ :: restPair.1, copied ++ restPair.2)

/-- Modelled from the spec: `copy_heading_before(id, before_heading_id)` has
no implementation under src/ (the spec's §4.2 and §6 `ch` command describe
it, but no source file defines it).  Per the spec it deep-copies a Heading
and all descendant Subheadings/Sentences into the same project, inserted
immediately before `before_heading_id`'s current position (shifting it and
later headings down), recursively duplicating every Subheading and Sentence
with fresh ids while preserving names, content and relative order. -/
def copy_heading_before (db : DB) (hId beforeId : Nat) : DB × Option Nat :=
  match db.cats.find? (fun c => c.id == hId), db.cats.find? (fun c => c.id == beforeId) with
  | some hrow, some brow =>
    let pos := brow.sortOrder
    let cats1 := db.cats.map (fun c =>
      if c.projectId == brow.projectId && c.sortOrder ≥ pos then
        { c with sortOrder := c.sortOrder + 1 } else c)
    let origSubs := db.subs.filter (fun s => s.mcId == hId)
    let copies := copySubsWithSents db origSubs db.nextSubId db.nextSentId db.nextCatId
    ({ db with
        cats := cats1 ++ [⟨db.nextCatId, brow.projectId, hrow.name, pos⟩],
        subs := db.subs ++ copies.1,
        sents := db.sents ++ copies.2,
        nextCatId := db.nextCatId + 1,
        nextSubId := db.nextSubId + copies.1.length,
        nextSentId := db.nextSentId + copies.2.length },
      some db.nextCatId)
  | _, _ => (db, none)

/-- Correspondence between an original subheading of the copied heading and
its copy: same name and position, a fresh id, and (relative to the final
state `dbAfter`) a sentence list identical in content and position to the
original's sentence list in the starting state `db`. -/
def copyMatches (db dbAfter : DB) (orig copy : SubRow) : Prop :=
  copy.name = orig.name ∧ copy.sortOrder = orig.sortOrder ∧
  copy.id ∉ db.subs.map (fun s => s.id) ∧
  (dbAfter.sents.filter (fun x => x.subId == copy.id)).map (fun x => (x.content, x.sortOrder))
    = (db.sents.filter (fun x => x.subId == orig.id)).map (fun x => (x.content, x.sortOrder))

/-- One mutating call of the repository (`Database` class of
database_utils.py), with arbitrary arguments. -/
inductive Step : DB → DB → Prop where
  | create_project (db : DB) (name : String) :
      Step db (Database.create_project db name).1
  | delete_project (db : DB) (pid : Nat) :
      Step db (Database.delete_project db pid)
  | create_major_category (db : DB) (pid : Nat) (name : String) :
      Step db (Database.create_major_category db pid name).1
  | update_major_category_name (db : DB) (mcId : Nat) (newName : String) :
      Step db (Database.update_major_category_name db mcId newName).1
  | move_major_category (db : DB) (mcId targetPid : Nat) (targetSort : Int) :
      Step db (Database.move_major_category db mcId targetPid targetSort).1
  | create_subcategory (db : DB) (mcId : Nat) (name : String) :
      Step db (Database.create_subcategory db mcId name).1
  | update_subcategory_name (db : DB) (subId : Nat) (newName : String) :
      Step db (Database.update_subcategory_name db subId newName).1
  | move_subcategory (db : DB) (subId targetMcId : Nat) (targetSort : Int) :
      Step db (Database.move_subcategory db subId targetMcId targetSort).1
  | add_sentence (db : DB) (subId : Nat) (content : String) :
      Step db (Database.add_sentence db subId content).1
  | update_sentence (db : DB) (sid : Nat) (content : String) :
      Step db (Database.update_sentence db sid content)
  | delete_sentence (db : DB) (sid : Nat) :
      Step db (Database.delete_sentence db sid).1
  | move_sentence (db : DB) (sid targetSub : Nat) :
      Step db (Database.move_sentence db sid targetSub).1
  | copy_sentence (db : DB) (sid targetSub : Nat) :
      Step db (Database.copy_sentence db sid targetSub).1
  | insert_sentence (db : DB) (targetLineNum : Int) (content : String) (pid : Nat) :
      Step db (Database.insert_sentence db targetLineNum content pid).1

/-- States reachable from a fresh database by repository calls. -/
def Reachable (db : DB) : Prop := Relation.ReflTransGen Step DB.empty db

/-- Number of blank-named subheadings of heading `mcId`. -/
def blankCount (db : DB) (mcId : Nat) : Nat :=
  db.subs.countP (fun s => s.mcId == mcId && s.name == "")

/-- The invariant carried through reachability proofs: subheading ids are
below the id counter, are pairwise distinct, and every heading has at most
one blank-named subheading. -/
def SubInv (db : DB) : Prop :=
  (∀ s ∈ db.subs, s.id < db.nextSubId) ∧
  (db.subs.map (·.id)).Nodup ∧
  ∀ mcId, blankCount db mcId ≤ 1

/-- A sibling group's `sort_order` multiset is exactly `{1, …, N}`. -/
def sortsDense (l : List Int) : Prop :=
  l.Perm ((List.range l.length).map (fun i => (i : Int) + 1))

instance (l : List Int) : Decidable (sortsDense l) :=
  inferInstanceAs (Decidable (l.Perm ((List.range l.length).map (fun i => (i : Int) + 1))))

/-- The `sort_order` values of the sentence group of subheading `subId`. -/
def sentSorts (db : DB) (subId : Nat) : List Int :=
  (db.sents.filter (fun x => x.subId == subId)).map (·.sortOrder)

/-- Fixture: one project, one heading, one blank subheading, two sentences
at positions 1 and 2. -/
def fixtureTwoSents : DB :=
  ⟨[⟨1, "P"⟩], [⟨1, 1, "H", 1⟩], [⟨1, 1, "", 1⟩],
    [⟨1, 1, "a", 1⟩, ⟨2, 1, "b", 2⟩], 2, 2, 2, 3⟩

/-- Fixture: a heading group where the `sort_order` positions disagree with
id order (sentence 1 is at position 2, sentence 2 at position 1), plus an
empty second subheading as a move target. -/
def fixtureScrambled : DB :=
  ⟨[⟨1, "P"⟩], [⟨1, 1, "H", 1⟩], [⟨1, 1, "", 1⟩, ⟨2, 1, "S", 2⟩],
    [⟨1, 1, "a", 2⟩, ⟨2, 1, "b", 1⟩, ⟨3, 1, "c", 3⟩], 2, 2, 3, 4⟩

/-- Fixture: one project with an existing heading named "A". -/
def fixtureDupName : DB :=
  ⟨[⟨1, "P"⟩], [⟨1, 1, "A", 1⟩], [], [], 2, 2, 1, 1⟩

/-- Fixture: a heading with two named subheadings and no blank one. -/
def fixtureNamedSubs : DB :=
  ⟨[⟨1, "P"⟩], [⟨1, 1, "H", 1⟩], [⟨1, 1, "S1", 1⟩, ⟨2, 1, "S2", 2⟩], [], 2, 2, 3, 1⟩

/-- Fixture: two headings in one project (with a subheading and a sentence
under the first), used for copy/move witnesses. -/
def fixtureTwoCats : DB :=
  ⟨[⟨1, "P"⟩], [⟨1, 1, "H1", 1⟩, ⟨2, 1, "H2", 2⟩], [⟨1, 1, "", 1⟩],
    [⟨1, 1, "a", 1⟩], 2, 3, 2, 2⟩

/-- First state of the C5 witness chain: one project created in a fresh
database. -/
def stepDB1 : DB := (Database.create_project DB.empty "Alpha").1

/-- Second state of the C5 witness chain: a heading added. -/
def stepDB2 : DB := (Database.create_major_category stepDB1 1 "H").1

/-- Third state of the C5 witness chain: the blank subheading created. -/
def stepDB3 : DB := (Database.create_subcategory stepDB2 1 "").1

/-- The rows of `Database.get_all_lines` that a single sentence row
contributes (the two inner joins of `joined_lines`, factored per
sentence; `joined_lines db pid = db.sents.flatMap (sentLines db pid)`
holds by definition). -/
def sentLines (db : DB) (pid : Nat) (s : SentRow) : List LineRow :=
  (db.subs.filter (fun sc => sc.id == s.subId)).flatMap fun sc =>
    (db.cats.filter (fun mc => mc.id == sc.mcId && mc.projectId == pid)).map fun mc =>
      ⟨s.id, mc.id, mc.name, sc.id, sc.name, s.content, mc.sortOrder, sc.sortOrder, s.sortOrder⟩

/-- Effect of `Database.insert_sentence`'s sort-order shift on a joined
row: rows of the target subheading at or after the target position move
down one line. -/
def lineShift (c : Nat) (t : Int) (r : LineRow) : LineRow :=
  if r.scId == c && r.sSort ≥ t then { r with sSort := r.sSort + 1 } else r

/-- The joined row of the sentence that `Database.insert_sentence`
inserts: it carries the target line's heading and subheading columns, the
new content, and the target's sentence `sort_order`. -/
def newLineRow (nid : Nat) (content : String) (target : LineRow) : LineRow :=
  ⟨nid, target.mcId, target.mcName, target.scId, target.scName, content,
   target.mcSort, target.scSort, target.sSort⟩

instance : IsAntisymm LineRow lineLt where
  antisymm a b h1 h2 := by
    exfalso
    simp only [lineLt] at h1 h2
    omega

/-- C1 (code_bug evidence).  The spec's density invariant — every sibling
group's `sort_order` values are exactly `{1, …, N}` — is maintained by
`Database.delete_sentence` but broken by `OutlineEditor.delete_sentence`
(outline_editor.py, lines 285-289), which deletes the row without
renumbering: deleting sentence 1 of a two-sentence group leaves the
remaining sentence at `sort_order = 2`, so the group's sorts are `{2}`,
not `{1}`. -/
theorem c1_outline_editor_delete_breaks_density :
    sortsDense (sentSorts fixtureTwoSents 1) ∧
    (OutlineEditor.delete_sentence fixtureTwoSents 1).2 = true ∧
    sentSorts (OutlineEditor.delete_sentence fixtureTwoSents 1).1 1 = [2] ∧
    ¬ sortsDense (sentSorts (OutlineEditor.delete_sentence fixtureTwoSents 1).1 1) ∧
    sortsDense (sentSorts (Database.delete_sentence fixtureTwoSents 1).1 1) := by
  refine ⟨by decide, rfl, by decide, by decide, by decide⟩

/-- C3 (counterexample).  `create_heading` does not succeed for every name:
the schema created by `Database.initialize` carries
`UNIQUE(project_id, name)` on `major_categories`, so creating a heading
named "A" in a project that already has a heading "A" returns `None` and
creates nothing. -/
theorem c3_counterexample :
    Database.create_major_category fixtureDupName 1 "A" = (fixtureDupName, none) := by
  decide

/-- C3 (amended).  `create_heading(project_id, name)` appends a heading
with `sort_order = max + 1` and returns its id when no heading of the
project already bears `name`; when one does, the `UNIQUE(project_id,
name)` constraint fires and the call returns `None` with the state
unchanged. -/
theorem c3_create_heading_unique_name (db : DB) (pid : Nat) (name : String) :
    ((Database.create_major_category db pid name).2 = none ↔
      ∃ c ∈ db.cats, c.projectId = pid ∧ c.name = name) ∧
    ((Database.create_major_category db pid name).2 = none →
      (Database.create_major_category db pid name).1 = db) ∧
    (∀ r : Nat, (Database.create_major_category db pid name).2 = some r →
      r = db.nextCatId ∧
      (Database.create_major_category db pid name).1.cats =
        db.cats ++ [⟨db.nextCatId, pid, name,
          sqlMax ((db.cats.filter (fun c => c.projectId == pid)).map (·.sortOrder)) + 1⟩]) := by
  have key : db.cats.any (fun c => c.projectId == pid && c.name == name) = true ↔
      ∃ c ∈ db.cats, c.projectId = pid ∧ c.name = name := by
    simp [List.any_eq_true]
  by_cases hc : db.cats.any (fun c => c.projectId == pid && c.name == name) = true
  · refine ⟨⟨fun _ => key.mp hc, fun _ => by simp [Database.create_major_category, hc]⟩,
      fun _ => by simp [Database.create_major_category, hc], fun r hr => ?_⟩
    simp [Database.create_major_category, hc] at hr
  · refine ⟨⟨fun h => ?_, fun h => absurd (key.mpr h) hc⟩, fun h => ?_, fun r hr => ?_⟩
    · simp [Database.create_major_category, hc] at h
    · simp [Database.create_major_category, hc] at h
    · simp [Database.create_major_category, hc] at hr
      exact ⟨hr.symm, by simp [Database.create_major_category, hc]⟩

/-- C3 (witness): creating a heading with a fresh name in `fixtureDupName`
succeeds, gets id 2, and is appended with `sort_order = 2`. -/
theorem c3_witness :
    (Database.create_major_category fixtureDupName 1 "B").1.cats =
      fixtureDupName.cats ++ [⟨2, 1, "B", 2⟩] := by
  have h := (c3_create_heading_unique_name fixtureDupName 1 "B").2.2 2 (by decide)
  rw [h.2]; decide

/-- C4: every repository operation that reports failure (returns `None`
instead of an id, `False`, or aborts on an uncaught uniqueness violation)
leaves the database state exactly as it was. -/
theorem c4_failure_leaves_state_unchanged :
    (∀ (db : DB) (n : String),
      (Database.create_project db n).2 = none → (Database.create_project db n).1 = db) ∧
    (∀ (db : DB) (p : Nat) (n : String),
      (Database.create_major_category db p n).2 = none →
        (Database.create_major_category db p n).1 = db) ∧
    (∀ (db : DB) (m : Nat) (n : String),
      (Database.create_subcategory db m n).2 = none →
        (Database.create_subcategory db m n).1 = db) ∧
    (∀ (db : DB) (i : Nat) (n : String),
      (Database.update_major_category_name db i n).2 = false →
        (Database.update_major_category_name db i n).1 = db) ∧
    (∀ (db : DB) (i : Nat) (n : String),
      (Database.update_subcategory_name db i n).2 = false →
        (Database.update_subcategory_name db i n).1 = db) ∧
    (∀ (db : DB) (i p : Nat) (t : Int),
      (Database.move_major_category db i p t).2 ≠ some true →
        (Database.move_major_category db i p t).1 = db) ∧
    (∀ (db : DB) (i m : Nat) (t : Int),
      (Database.move_subcategory db i m t).2 ≠ some true →
        (Database.move_subcategory db i m t).1 = db) ∧
    (∀ (db : DB) (i : Nat),
      (Database.delete_sentence db i).2 = false → (Database.delete_sentence db i).1 = db) ∧
    (∀ (db : DB) (i j : Nat),
      (Database.move_sentence db i j).2 = false → (Database.move_sentence db i j).1 = db) ∧
    (∀ (db : DB) (i j : Nat),
      (Database.copy_sentence db i j).2 = false → (Database.copy_sentence db i j).1 = db) ∧
    (∀ (db : DB) (k : Int) (c : String) (p : Nat),
      (Database.insert_sentence db k c p).2 = none → (Database.insert_sentence db k c p).1 = db) := by
  refine ⟨?_, ?_, ?_, ?_, ?_, ?_, ?_, ?_, ?_, ?_, ?_⟩
  · intro db n h
    by_cases hc : db.projects.any (fun p => p.name == n) <;>
      simp [Database.create_project, hc] at h ⊢
  · intro db p n h
    by_cases hc : db.cats.any (fun c => c.projectId == p && c.name == n) <;>
      simp [Database.create_major_category, hc] at h ⊢
  · intro db m n h
    by_cases hn : n = ""
    · subst hn
      rcases hf : db.subs.find? (fun s => s.mcId == m && s.name == "") with _ | e <;>
        simp [Database.create_subcategory, hf] at h ⊢
    · by_cases hc : db.subs.any (fun s => s.mcId == m && s.name == n) <;>
        simp [Database.create_subcategory, hn, hc] at h ⊢
  · intro db i n h
    by_cases hc : db.cats.any (fun c => c.id == i &&
        db.cats.any (fun d => d.id != c.id && d.projectId == c.projectId && d.name == n)) <;>
      simp [Database.update_major_category_name, hc] at h ⊢
  · intro db i n h
    by_cases hc : db.subs.any (fun s => s.id == i &&
        db.subs.any (fun d => d.id != s.id && d.mcId == s.mcId && d.name == n)) <;>
      simp [Database.update_subcategory_name, hc] at h ⊢
  · intro db i p t h
    rcases hf : db.cats.find? (fun c => c.id == i) with _ | row
    · simp [Database.move_major_category, hf]
    · by_cases hp : row.projectId ≠ p
      · by_cases hc : db.cats.any (fun c => c.id != i && c.projectId == p && c.name == row.name) <;>
          simp [Database.move_major_category, hf, hp, hc] at h ⊢
      · by_cases ht : t ≠ row.sortOrder <;>
          simp [Database.move_major_category, hf, hp, ht] at h ⊢
  · intro db i m t h
    rcases hf : db.subs.find? (fun s => s.id == i) with _ | row
    · simp [Database.move_subcategory, hf]
    · by_cases hp : row.mcId ≠ m
      · by_cases hc : db.subs.any (fun s => s.id != i && s.mcId == m && s.name == row.name) <;>
          simp [Database.move_subcategory, hf, hp, hc] at h ⊢
      · by_cases ht : t ≠ row.sortOrder <;>
          simp [Database.move_subcategory, hf, hp, ht] at h ⊢
  · intro db i h
    rcases hf : db.sents.find? (fun x => x.id == i) with _ | row <;>
      simp [Database.delete_sentence, hf] at h ⊢
  · intro db i j h
    rcases hf : db.sents.find? (fun x => x.id == i) with _ | row <;>
      simp [Database.move_sentence, hf] at h ⊢
  · intro db i j h
    rcases hf : db.sents.find? (fun x => x.id == i) with _ | row <;>
      simp [Database.copy_sentence, hf] at h ⊢
  · intro db k c p h
    by_cases hc : k < 1 ∨ ((Database.get_all_lines db p).length : Int) < k <;>
      simp [Database.insert_sentence, hc] at h ⊢

/-- C4 (witness): creating a duplicate-named subheading fails and leaves
`fixtureNamedSubs` untouched. -/
theorem c4_witness :
    (Database.create_subcategory fixtureNamedSubs 1 "S1").1 = fixtureNamedSubs :=
  c4_failure_leaves_state_unchanged.2.2.1 fixtureNamedSubs 1 "S1" (by decide)

/-- C6: when a heading has no blank subheading, `create_subcategory` with
the empty name returns the fresh id, gives the blank subheading
`sort_order = 1`, increases every existing subheading of that heading by
exactly one (preserving relative order), and leaves every other heading's
subheadings untouched. -/
theorem c6_blank_subheading_inserted_first (db : DB) (mcId : Nat)
    (hno : db.subs.find? (fun s => s.mcId == mcId && s.name == "") = none) :
    (Database.create_subcategory db mcId "").2 = some db.nextSubId ∧
    (Database.create_subcategory db mcId "").1.subs =
      (db.subs.map (fun s => if s.mcId == mcId then { s with sortOrder := s.sortOrder + 1 } else s))
        ++ [⟨db.nextSubId, mcId, "", 1⟩] ∧
    ((Database.create_subcategory db mcId "").1.subs.filter (fun s => s.mcId == mcId)).map
        (fun s => (s.name, s.sortOrder)) =
      ((db.subs.filter (fun s => s.mcId == mcId)).map (fun s => (s.name, s.sortOrder + 1)))
        ++ [("", 1)] ∧
    (Database.create_subcategory db mcId "").1.subs.filter (fun s => s.mcId != mcId) =
      db.subs.filter (fun s => s.mcId != mcId) := by
  have hsubs : (Database.create_subcategory db mcId "").1.subs =
      (db.subs.map (fun s => if s.mcId == mcId then { s with sortOrder := s.sortOrder + 1 } else s))
        ++ [⟨db.nextSubId, mcId, "", 1⟩] := by
    simp [Database.create_subcategory, hno]
  refine ⟨by simp [Database.create_subcategory, hno], hsubs, ?_, ?_⟩
  · rw [hsubs, List.filter_append, List.filter_map]
    have hcond : ∀ s : SubRow,
        ((fun s => s.mcId == mcId) ∘
          (fun s : SubRow => if s.mcId == mcId then { s with sortOrder := s.sortOrder + 1 } else s)) s =
        (fun s : SubRow => s.mcId == mcId) s := by
      intro s
      by_cases h : s.mcId = mcId <;> simp [h]
    rw [List.filter_congr (fun s _ => hcond s), List.map_append, List.map_map]
    congr 1
    · refine List.map_congr_left (fun s hs => ?_)
      have h2 : s.mcId = mcId := by simpa using (List.mem_filter.mp hs).2
      simp [h2]
    · simp
  · rw [hsubs, List.filter_append, List.filter_map]
    have hcond : ∀ s : SubRow,
        ((fun s => s.mcId != mcId) ∘
          (fun s : SubRow => if s.mcId == mcId then { s with sortOrder := s.sortOrder + 1 } else s)) s =
        (fun s : SubRow => s.mcId != mcId) s := by
      intro s
      by_cases h : s.mcId = mcId <;> simp [h]
    rw [List.filter_congr (fun s _ => hcond s)]
    have hnew : ([⟨db.nextSubId, mcId, "", 1⟩] : List SubRow).filter (fun s => s.mcId != mcId) = [] := by
      simp
    rw [hnew, List.append_nil]
    have hid : ∀ s ∈ db.subs.filter (fun s => s.mcId != mcId),
        (if s.mcId == mcId then { s with sortOrder := s.sortOrder + 1 } else s) = s := by
      intro s hs
      have h2 := (List.mem_filter.mp hs).2
      simp only [bne_iff_ne, ne_eq] at h2
      simp [h2]
    rw [List.map_congr_left hid]
    simp

/-- C6 (witness): on a heading with two named subheadings and no blank
one, creating the blank subheading returns the fresh id 3. -/
theorem c6_witness :
    (Database.create_subcategory fixtureNamedSubs 1 "").2 = some 3 :=
  (c6_blank_subheading_inserted_first fixtureNamedSubs 1 (by decide)).1

/-- C7: moving a sentence from subheading A (at position p) to a distinct
subheading B appends it to B at `max + 1`, decrements every remaining
sentence of A whose `sort_order` exceeded p by one, and leaves all other
sentences unchanged. -/
theorem c7_move_sentence_appends_and_compacts (db : DB) (sid tgt : Nat) (srow : SentRow)
    (hfind : db.sents.find? (fun x => x.id == sid) = some srow)
    (hne : srow.subId ≠ tgt) :
    (Database.move_sentence db sid tgt).2 = true ∧
    (Database.move_sentence db sid tgt).1.sents = db.sents.map (fun x =>
      if x.id = sid then
        { x with
            subId := tgt,
            sortOrder := sqlMax ((db.sents.filter (fun y => y.subId == tgt)).map (·.sortOrder)) + 1 }
      else if x.subId = srow.subId ∧ srow.sortOrder < x.sortOrder then
        { x with sortOrder := x.sortOrder - 1 }
      else x) ∧
    (∀ x ∈ db.sents, x.id = sid →
      ({ x with
          subId := tgt,
          sortOrder := sqlMax ((db.sents.filter (fun y => y.subId == tgt)).map (·.sortOrder)) + 1 }
        : SentRow) ∈ (Database.move_sentence db sid tgt).1.sents) ∧
    (∀ x ∈ db.sents, x.id ≠ sid → x.subId = srow.subId → srow.sortOrder < x.sortOrder →
      ({ x with sortOrder := x.sortOrder - 1 } : SentRow) ∈
        (Database.move_sentence db sid tgt).1.sents) ∧
    (∀ x ∈ db.sents, x.id ≠ sid → (x.subId ≠ srow.subId ∨ x.sortOrder ≤ srow.sortOrder) →
      x ∈ (Database.move_sentence db sid tgt).1.sents) := by
  have hmain : (Database.move_sentence db sid tgt).1.sents = db.sents.map (fun x =>
      if x.id = sid then
        { x with
            subId := tgt,
            sortOrder := sqlMax ((db.sents.filter (fun y => y.subId == tgt)).map (·.sortOrder)) + 1 }
      else if x.subId = srow.subId ∧ srow.sortOrder < x.sortOrder then
        { x with sortOrder := x.sortOrder - 1 }
      else x) := by
    simp only [Database.move_sentence, hfind, List.map_map]
    refine List.map_congr_left (fun x _ => ?_)
    by_cases hx : x.id = sid
    · simp [hx, Function.comp, hne, Ne.symm hne]
    · by_cases hsub : x.subId = srow.subId
      · by_cases hlt : srow.sortOrder < x.sortOrder
        · simp [hx, hsub, hlt, Function.comp]
        · simp [hx, hsub, hlt, Function.comp]
      · simp [hx, hsub, Function.comp]
  refine ⟨by simp [Database.move_sentence, hfind], hmain, ?_, ?_, ?_⟩
  · intro x hx hid
    rw [hmain]
    exact List.mem_map.mpr ⟨x, hx, by simp [hid]⟩
  · intro x hx hid hsub hlt
    rw [hmain]
    exact List.mem_map.mpr ⟨x, hx, by simp [hid, hsub, hlt]⟩
  · intro x hx hid hother
    rw [hmain]
    refine List.mem_map.mpr ⟨x, hx, ?_⟩
    rcases hother with h | h
    · simp [hid, h]
    · by_cases hsub : x.subId = srow.subId
      · simp [hid, hsub, not_lt.mpr h]
      · simp [hid, hsub]

/-- C7 (witness): moving sentence 3 out of subheading 1 into the empty
subheading 2 of `fixtureScrambled` succeeds. -/
theorem c7_witness :
    (Database.move_sentence fixtureScrambled 3 2).2 = true :=
  (c7_move_sentence_appends_and_compacts fixtureScrambled 3 2 ⟨3, 1, "c", 3⟩
    (by decide) (by decide)).1

/-- C8: a same-project heading move to position `t` from position `s`
writes the heading to `t`; when `t < s` exactly the siblings in `[t, s)`
move up by one, when `t > s` exactly the siblings in `(s, t]` move down by
one, and when `t = s` the state is unchanged. -/
theorem c8_move_heading_same_project (db : DB) (mcId : Nat) (t : Int) (row : CatRow)
    (hfind : db.cats.find? (fun c => c.id == mcId) = some row) :
    (Database.move_major_category db mcId row.projectId t).2 = some true ∧
    (t = row.sortOrder → (Database.move_major_category db mcId row.projectId t).1 = db) ∧
    (t ≠ row.sortOrder →
      (Database.move_major_category db mcId row.projectId t).1.cats = db.cats.map (fun c =>
        if c.id = mcId then { c with sortOrder := t }
        else if c.projectId = row.projectId ∧ t ≤ c.sortOrder ∧ c.sortOrder < row.sortOrder then
          { c with sortOrder := c.sortOrder + 1 }
        else if c.projectId = row.projectId ∧ row.sortOrder < c.sortOrder ∧ c.sortOrder ≤ t then
          { c with sortOrder := c.sortOrder - 1 }
        else c)) := by
  refine ⟨?_, ?_, ?_⟩
  · by_cases ht : t = row.sortOrder <;> by_cases hlt : t < row.sortOrder <;>
      simp [Database.move_major_category, hfind, ht, hlt]
  · intro ht
    simp [Database.move_major_category, hfind, ht]
  · intro ht
    by_cases hlt : t < row.sortOrder
    · simp only [Database.move_major_category, hfind,
        if_neg (by simp : ¬ row.projectId ≠ row.projectId), if_pos ht, if_pos hlt, List.map_map]
      refine List.map_congr_left (fun c _ => ?_)
      have h4 : ¬ (row.sortOrder < c.sortOrder ∧ c.sortOrder ≤ t) := by omega
      simp only [Function.comp]
      by_cases hc : c.id = mcId <;> by_cases h1 : c.projectId = row.projectId <;>
        by_cases h2 : t ≤ c.sortOrder <;> by_cases h3 : c.sortOrder < row.sortOrder <;>
          simp [hc, h1, h2, h3, h4]
    · have hgt : row.sortOrder < t := lt_of_le_of_ne (not_lt.mp hlt) (Ne.symm ht)
      simp only [Database.move_major_category, hfind,
        if_neg (by simp : ¬ row.projectId ≠ row.projectId), if_pos ht, if_neg hlt, List.map_map]
      refine List.map_congr_left (fun c _ => ?_)
      have h4 : ¬ (t ≤ c.sortOrder ∧ c.sortOrder < row.sortOrder) := by omega
      simp only [Function.comp]
      by_cases hc : c.id = mcId <;> by_cases h1 : c.projectId = row.projectId <;>
        by_cases h2 : row.sortOrder < c.sortOrder <;> by_cases h3 : c.sortOrder ≤ t <;>
          simp [hc, h1, h2, h3, h4]

/-- C8 (witness): moving heading 1 of `fixtureTwoCats` (position 1) to
position 2 of its own project succeeds. -/
theorem c8_witness :
    (Database.move_major_category fixtureTwoCats 1 1 2).2 = some true :=
  (c8_move_heading_same_project fixtureTwoCats 1 2 ⟨1, 1, "H1", 1⟩ (by decide)).1

/-- C10 (counterexample): from a state whose source group's `sort_order`
disagrees with id order, `Database.move_sentence` and
`SentenceMaintenance.move_sentence` produce different orderings in the
source subheading — the former preserves the existing order (b before a),
the latter renumbers by ascending id (a before b). -/
theorem c10_counterexample :
    (Database.move_sentence fixtureScrambled 3 2).1.sents =
      [⟨1, 1, "a", 2⟩, ⟨2, 1, "b", 1⟩, ⟨3, 2, "c", 1⟩] ∧
    (SentenceMaintenance.move_sentence fixtureScrambled 3 2).1.sents =
      [⟨1, 1, "a", 1⟩, ⟨2, 1, "b", 2⟩, ⟨3, 2, "c", 1⟩] ∧
    (Database.move_sentence fixtureScrambled 3 2).1 ≠
      (SentenceMaintenance.move_sentence fixtureScrambled 3 2).1 := by
  refine ⟨by decide, by decide, by decide⟩

/-- A `countP` splits into the counts of two disjoint predicates that
cover it. -/
theorem countP_split {α : Type} (l : List α) (p q r : α → Bool)
    (h : ∀ a ∈ l, p a = (q a || r a) ∧ ¬(q a = true ∧ r a = true)) :
    l.countP p = l.countP q + l.countP r := by
  induction l with
  | nil => simp
  | cons a as ih =>
    have ha := h a (List.mem_cons_self a as)
    have ih' := ih (fun b hb => h b (List.mem_cons_of_mem a hb))
    cases hq : q a <;> cases hr : r a
    · have hp : p a = false := by rw [ha.1, hq, hr]; rfl
      simp [List.countP_cons, hp, hq, hr, ih']
    · have hp : p a = true := by rw [ha.1, hq, hr]; rfl
      simp [List.countP_cons, hp, hq, hr, ih']
      omega
    · have hp : p a = true := by rw [ha.1, hq, hr]; rfl
      simp [List.countP_cons, hp, hq, hr, ih']
      omega
    · exact absurd ⟨hq, hr⟩ ha.2

/-- In a list whose `f`-keys are pairwise distinct, the members with the
key of `w` that satisfy `p` number one if `p w` holds and zero otherwise. -/
theorem countP_unique {α : Type} (f : α → Nat) (l : List α) (hnodup : (l.map f).Nodup)
    (w : α) (hw : w ∈ l) (p : α → Bool) :
    l.countP (fun z => (f z == f w) && p z) = if p w then 1 else 0 := by
  induction l with
  | nil => cases hw
  | cons a as ih =>
    rw [List.map_cons, List.nodup_cons] at hnodup
    rcases List.mem_cons.mp hw with rfl | hw'
    · have hrest : as.countP (fun z => (f z == f w) && p z) = 0 := by
        refine List.countP_eq_zero.mpr (fun z hz => ?_)
        have : f z ≠ f w := fun he => hnodup.1 (he ▸ List.mem_map_of_mem f hz)
        simp [this]
      rcases hp : p w <;> simp [List.countP_cons, hrest, hp]
    · have hne : f a ≠ f w := fun he => hnodup.1 (he ▸ List.mem_map_of_mem f hw')
      rw [List.countP_cons]
      simp [hne, ih hnodup.2 hw']

/-- Two booleans are equal when their truth is equivalent. -/
theorem bool_eq_of_iff {a b : Bool} (h : a = true ↔ b = true) : a = b := by
  cases a <;> cases b <;> simp_all

/-- C10 (amended): on states where the source subheading's sentences are
ranked consistently with their ids (each sentence's `sort_order` is one
plus the number of same-group sentences with a smaller id, as produced by
pure appends/deletes) and ids are unique, `Database.move_sentence` and
`SentenceMaintenance.move_sentence` coincide exactly; in general they
differ, because the former preserves the existing source-group order while
the latter renumbers the source group by ascending id. -/
theorem c10_amended (db : DB) (sid tgt : Nat) (srow : SentRow)
    (hfind : db.sents.find? (fun x => x.id == sid) = some srow)
    (hne : srow.subId ≠ tgt)
    (hnodup : (db.sents.map (·.id)).Nodup)
    (hrank : ∀ x ∈ db.sents, x.subId = srow.subId →
      x.sortOrder = 1 + (db.sents.countP (fun z => z.subId == srow.subId && z.id < x.id) : Int)) :
    Database.move_sentence db sid tgt = SentenceMaintenance.move_sentence db sid tgt := by
  have hsrow_mem : srow ∈ db.sents := List.mem_of_find?_eq_some hfind
  have hsrow_id : srow.id = sid := by simpa using List.find?_some hfind
  simp only [Database.move_sentence, SentenceMaintenance.move_sentence, hfind]
  rw [List.map_map, List.map_map]
  refine congrArg (fun s => ((({ db with sents := s }) : DB), (true : Bool))) ?_
  refine List.map_congr_left (fun y hy => ?_)
  simp only [Function.comp]
  by_cases hyid : y.id = sid
  · simp [hyid, Ne.symm hne]
  · by_cases hsub : y.subId = srow.subId
    · simp only [hyid, hsub, beq_iff_eq, if_neg, if_false, decide_eq_true_eq]
      rw [if_true, List.countP_map]
      have hcy := hrank y hy hsub
      have hcs := hrank srow hsrow_mem rfl
      have h1 : List.countP ((fun y_1 => y_1.subId == srow.subId && decide (y_1.id ≤ y.id)) ∘
          fun x => if x.id = sid then
            { id := x.id, subId := tgt, content := x.content,
              sortOrder :=
                sqlMax (List.map (fun x => x.sortOrder) (List.filter (fun x => x.subId == tgt) db.sents)) + 1 }
          else x) db.sents =
          List.countP (fun z => (!(z.id == sid)) && (z.subId == srow.subId && decide (z.id ≤ y.id)))
            db.sents := by
        refine List.countP_congr (fun z hz => ?_)
        by_cases hzid : z.id = sid
        · simp [Function.comp, hzid, Ne.symm hne]
        · simp [Function.comp, hzid]
      rw [h1]
      have hsplit1 : List.countP (fun z => z.subId == srow.subId && decide (z.id ≤ y.id)) db.sents
          = List.countP (fun z => (z.id == sid) && (z.subId == srow.subId && decide (z.id ≤ y.id)))
              db.sents
            + List.countP (fun z => (!(z.id == sid)) && (z.subId == srow.subId && decide (z.id ≤ y.id)))
              db.sents := by
        refine countP_split _ _ _ _ (fun a _ => ⟨bool_eq_of_iff ?_, ?_⟩)
        · simp only [Bool.or_eq_true, Bool.and_eq_true, Bool.not_eq_true', beq_iff_eq, beq_eq_false_iff_ne,
            ne_eq, decide_eq_true_eq]
          by_cases h : a.id = sid <;> simp [h]
        · rintro ⟨hq, hr⟩
          simp only [Bool.and_eq_true, Bool.not_eq_true', beq_iff_eq, beq_eq_false_iff_ne, ne_eq] at hq hr
          exact absurd hq.1 hr.1
      have hsplit2 : List.countP (fun z => z.subId == srow.subId && decide (z.id ≤ y.id)) db.sents
          = List.countP (fun z => z.subId == srow.subId && decide (z.id < y.id)) db.sents
            + List.countP (fun z => (z.id == y.id) && (z.subId == srow.subId)) db.sents := by
        refine countP_split _ _ _ _ (fun a _ => ⟨bool_eq_of_iff ?_, ?_⟩)
        · simp only [Bool.or_eq_true, Bool.and_eq_true, beq_iff_eq, decide_eq_true_eq]
          by_cases h1 : a.subId = srow.subId <;> simp [h1] <;> omega
        · rintro ⟨hq, hr⟩
          simp only [Bool.and_eq_true, beq_iff_eq, decide_eq_true_eq] at hq hr
          omega
      have hsplit3 : List.countP (fun z => z.subId == srow.subId && decide (z.id ≤ srow.id)) db.sents
          = List.countP (fun z => z.subId == srow.subId && decide (z.id < srow.id)) db.sents
            + List.countP (fun z => (z.id == srow.id) && (z.subId == srow.subId)) db.sents := by
        refine countP_split _ _ _ _ (fun a _ => ⟨bool_eq_of_iff ?_, ?_⟩)
        · simp only [Bool.or_eq_true, Bool.and_eq_true, beq_iff_eq, decide_eq_true_eq]
          by_cases h1 : a.subId = srow.subId <;> simp [h1] <;> omega
        · rintro ⟨hq, hr⟩
          simp only [Bool.and_eq_true, beq_iff_eq, decide_eq_true_eq] at hq hr
          omega
      have huniq1 : List.countP (fun z => (z.id == sid) && (z.subId == srow.subId && decide (z.id ≤ y.id)))
          db.sents = if sid < y.id then 1 else 0 := by
        have h : List.countP (fun z => (z.id == srow.id) && (z.subId == srow.subId && decide (z.id ≤ y.id)))
            db.sents =
            if (srow.subId == srow.subId && decide (srow.id ≤ y.id)) then 1 else 0 :=
          countP_unique (fun z : SentRow => z.id) db.sents hnodup srow hsrow_mem
            (fun z => z.subId == srow.subId && decide (z.id ≤ y.id))
        simp only [hsrow_id] at h
        rw [h]
        by_cases hid : sid < y.id
        · rw [if_pos hid, if_pos (by simp; omega)]
        · rw [if_neg hid, if_neg (by simp; omega)]
      have huniq2 : List.countP (fun z => (z.id == y.id) && (z.subId == srow.subId)) db.sents = 1 := by
        have h : List.countP (fun z => (z.id == y.id) && (z.subId == srow.subId)) db.sents =
            if (y.subId == srow.subId) then 1 else 0 :=
          countP_unique (fun z : SentRow => z.id) db.sents hnodup y hy
            (fun z => z.subId == srow.subId)
        rw [h, if_pos (by simp [hsub])]
      have huniq3 : List.countP (fun z => (z.id == srow.id) && (z.subId == srow.subId)) db.sents = 1 := by
        have h : List.countP (fun z => (z.id == srow.id) && (z.subId == srow.subId)) db.sents =
            if (srow.subId == srow.subId) then 1 else 0 :=
          countP_unique (fun z : SentRow => z.id) db.sents hnodup srow hsrow_mem
            (fun z => z.subId == srow.subId)
        rw [h, if_pos (by simp)]
      have hmono1 : sid < y.id →
          List.countP (fun z => z.subId == srow.subId && decide (z.id < srow.id)) db.sents + 1
            ≤ List.countP (fun z => z.subId == srow.subId && decide (z.id < y.id)) db.sents := by
        intro hid
        have hle : List.countP (fun z => z.subId == srow.subId && decide (z.id ≤ srow.id)) db.sents
            ≤ List.countP (fun z => z.subId == srow.subId && decide (z.id < y.id)) db.sents := by
          refine List.countP_mono_left (fun z _ hp => ?_)
          simp only [Bool.and_eq_true, beq_iff_eq, decide_eq_true_eq] at hp ⊢
          exact ⟨hp.1, by omega⟩
        omega
      have hmono2 : y.id < sid →
          List.countP (fun z => z.subId == srow.subId && decide (z.id < y.id)) db.sents + 1
            ≤ List.countP (fun z => z.subId == srow.subId && decide (z.id < srow.id)) db.sents := by
        intro hid
        have hle : List.countP (fun z => z.subId == srow.subId && decide (z.id ≤ y.id)) db.sents
            ≤ List.countP (fun z => z.subId == srow.subId && decide (z.id < srow.id)) db.sents := by
          refine List.countP_mono_left (fun z _ hp => ?_)
          simp only [Bool.and_eq_true, beq_iff_eq, decide_eq_true_eq] at hp ⊢
          exact ⟨hp.1, by omega⟩
        omega
      have hiff : srow.sortOrder < y.sortOrder ↔ sid < y.id := by
        rw [hcy, hcs]
        constructor
        · intro h
          rcases Nat.lt_trichotomy sid y.id with h2 | h2 | h2
          · exact h2
          · exact absurd h2.symm hyid
          · have := hmono2 h2
            omega
        · intro h
          have := hmono1 h
          omega
      by_cases hlt : srow.sortOrder < y.sortOrder
      · rw [if_pos (by simp [hlt])]
        have hid : sid < y.id := hiff.mp hlt
        have hq1 : List.countP (fun z => (z.id == sid) && (z.subId == srow.subId && decide (z.id ≤ y.id)))
            db.sents = 1 := by rw [huniq1, if_pos hid]
        have e3 : List.countP
            (fun z => (!(z.id == sid)) && (z.subId == srow.subId && decide (z.id ≤ y.id))) db.sents
            = List.countP (fun z => z.subId == srow.subId && decide (z.id < y.id)) db.sents := by
          omega
        simp only [SentRow.mk.injEq, true_and, Int.ofNat_eq_natCast]
        rw [e3, hcy]
        omega
      · rw [if_neg (by simp [hlt])]
        have hid : ¬ sid < y.id := fun h => hlt (hiff.mpr h)
        have hq1 : List.countP (fun z => (z.id == sid) && (z.subId == srow.subId && decide (z.id ≤ y.id)))
            db.sents = 0 := by rw [huniq1, if_neg hid]
        have e3 : List.countP
            (fun z => (!(z.id == sid)) && (z.subId == srow.subId && decide (z.id ≤ y.id))) db.sents
            = List.countP (fun z => z.subId == srow.subId && decide (z.id < y.id)) db.sents + 1 := by
          omega
        have hval : Int.ofNat (List.countP
            (fun z => (!(z.id == sid)) && (z.subId == srow.subId && decide (z.id ≤ y.id))) db.sents)
            = y.sortOrder := by
          simp only [Int.ofNat_eq_natCast]
          rw [e3, hcy]
          omega
        rw [hval, ← hsub]
    · simp [hyid, hsub]

/-- C10 (witness): on `fixtureTwoSents` (sorts aligned with ids) the two
implementations agree when moving sentence 1 to another subheading. -/
theorem c10_witness :
    Database.move_sentence fixtureTwoSents 1 99 =
      SentenceMaintenance.move_sentence fixtureTwoSents 1 99 :=
  c10_amended fixtureTwoSents 1 99 ⟨1, 1, "a", 1⟩ (by decide) (by decide) (by decide) (by decide)

/-- `countP` of a disjunction is at most the sum of the two counts. -/
theorem countP_or_le {α : Type} (l : List α) (q r : α → Bool) :
    l.countP (fun a => q a || r a) ≤ l.countP q + l.countP r := by
  induction l with
  | nil => simp
  | cons a as ih =>
    cases hq : q a <;> cases hr : r a <;>
      simp [List.countP_cons, hq, hr] <;> omega

/-- `find?` only depends on the pointwise behaviour of the predicate. -/
theorem find?_congr_pointwise {α : Type} (p q : α → Bool) (l : List α)
    (h : ∀ a ∈ l, p a = q a) : l.find? p = l.find? q := by
  induction l with
  | nil => rfl
  | cons a as ih =>
    rw [List.find?_cons, List.find?_cons, h a (List.mem_cons_self a as)]
    cases q a
    · exact ih (fun b hb => h b (List.mem_cons_of_mem a hb))
    · rfl

/-- In a list with pairwise-distinct keys, at most one member has any
given key. -/
theorem countP_key_le_one {α : Type} (f : α → Nat) (l : List α)
    (h : (l.map f).Nodup) (a : Nat) : l.countP (fun s => f s == a) ≤ 1 := by
  induction l with
  | nil => simp
  | cons x xs ih =>
    rw [List.map_cons, List.nodup_cons] at h
    rw [List.countP_cons]
    cases hx : (f x == a)
    · simpa using ih h.2
    · have hrest : xs.countP (fun s => f s == a) = 0 := by
        refine List.countP_eq_zero.mpr (fun z hz hza => ?_)
        rw [beq_iff_eq] at hx hza
        exact h.1 ((hx.trans hza.symm) ▸ List.mem_map_of_mem f hz)
      simp [hrest]

/-- Mapping an id-preserving function over the subheading table keeps the
id column unchanged. -/
theorem map_id_preserved (l : List SubRow) (f : SubRow → SubRow)
    (hid : ∀ s, (f s).id = s.id) :
    (l.map f).map (fun s => s.id) = l.map (fun s => s.id) := by
  rw [List.map_map]
  exact List.map_congr_left (fun s _ => hid s)

/-- Mapping an id-preserving function preserves distinctness of the id
column. -/
theorem nodup_ids_map {l : List SubRow} (f : SubRow → SubRow)
    (hid : ∀ s, (f s).id = s.id) (h : (l.map (fun s => s.id)).Nodup) :
    ((l.map f).map (fun s => s.id)).Nodup := by
  rw [map_id_preserved l f hid]
  exact h

/-- Two stacked id-preserving maps keep the id column's distinctness. -/
theorem nodup_ids_double_map {l : List SubRow} (f g : SubRow → SubRow)
    (hid : ∀ s, (g (f s)).id = s.id) (h : (l.map (fun s => s.id)).Nodup) :
    (((l.map f).map g).map (fun s => s.id)).Nodup := by
  rw [List.map_map, List.map_map]
  have heq : l.map (((fun s : SubRow => s.id) ∘ g) ∘ f) = l.map (fun s => s.id) :=
    List.map_congr_left (fun s _ => hid s)
  rw [heq]
  exact h

/-- `SubInv` transfers along a map of the subheading table that preserves
ids, parents and names. -/
theorem subInv_map_preserving {db db' : DB} (f : SubRow → SubRow)
    (hsubs : db'.subs = db.subs.map f) (hnext : db'.nextSubId = db.nextSubId)
    (hid : ∀ s, (f s).id = s.id) (hmc : ∀ s, (f s).mcId = s.mcId)
    (hnm : ∀ s, (f s).name = s.name) (hinv : SubInv db) :
    SubInv db' := by
  obtain ⟨hb, hn, hc⟩ := hinv
  refine ⟨?_, ?_, ?_⟩
  · intro s hs
    rw [hsubs] at hs
    obtain ⟨t, ht, rfl⟩ := List.mem_map.mp hs
    rw [hid t, hnext]
    exact hb t ht
  · rw [hsubs, map_id_preserved _ _ hid]
    exact hn
  · intro mc
    unfold blankCount
    rw [hsubs, List.countP_map]
    calc List.countP _ db.subs = List.countP (fun s => s.mcId == mc && s.name == "") db.subs := by
          refine List.countP_congr (fun x _ => ?_)
          simp [Function.comp, hmc x, hnm x]
      _ ≤ 1 := hc mc

/-- `SubInv` only looks at the subheading table and its id counter. -/
theorem subInv_of_eq {db db' : DB} (h : SubInv db) (hsubs : db'.subs = db.subs)
    (hnext : db'.nextSubId = db.nextSubId) : SubInv db' := by
  unfold SubInv blankCount at *
  rw [hsubs, hnext]
  exact h

/-- Every repository call preserves `SubInv`. -/
theorem subInv_step {db db' : DB} (hstep : Step db db') (hinv : SubInv db) : SubInv db' := by
  cases hstep with
  | create_project name =>
    simp only [Database.create_project]
    split <;> exact hinv
  | delete_project pid =>
    simp only [Database.delete_project]
    obtain ⟨hb, hn, hc⟩ := hinv
    refine ⟨fun s hs => hb s (List.mem_of_mem_filter hs), ?_, fun mc => ?_⟩
    · exact ((List.filter_sublist db.subs).map _).nodup hn
    · unfold blankCount
      calc List.countP _ (db.subs.filter _) ≤ db.subs.countP _ := by
            rw [List.countP_filter]
            exact List.countP_mono_left (fun a _ ha => by
              simp only [Bool.and_eq_true] at ha
              simp [ha.1.1, ha.1.2])
        _ ≤ 1 := hc mc
  | create_major_category pid name =>
    simp only [Database.create_major_category]
    split <;> exact hinv
  | update_major_category_name mcId newName =>
    simp only [Database.update_major_category_name]
    split <;> exact hinv
  | move_major_category mcId targetPid targetSort =>
    simp only [Database.move_major_category]
    split
    · exact hinv
    · split
      · split
        · exact hinv
        · exact hinv
      · split
        · split <;> exact hinv
        · exact hinv
  | add_sentence subId content =>
    exact hinv
  | update_sentence sid content =>
    exact hinv
  | delete_sentence sid =>
    simp only [Database.delete_sentence]
    split <;> exact hinv
  | move_sentence sid targetSub =>
    simp only [Database.move_sentence]
    split <;> exact hinv
  | copy_sentence sid targetSub =>
    simp only [Database.copy_sentence]
    split <;> exact hinv
  | insert_sentence targetLineNum content pid =>
    simp only [Database.insert_sentence]
    split <;> exact hinv
  | create_subcategory mcId name =>
    obtain ⟨hb, hn, hc⟩ := hinv
    by_cases hname : name == ""
    · simp only [Database.create_subcategory, hname, if_true]
      rcases hf : db.subs.find? (fun s => s.mcId == mcId && s.name == "") with _ | e
      · simp only [hf]
        refine ⟨?_, ?_, ?_⟩
        · intro s hs
          rcases List.mem_append.mp hs with hs1 | hs2
          · obtain ⟨t, ht, rfl⟩ := List.mem_map.mp hs1
            have hlt := hb t ht
            by_cases h : t.mcId = mcId <;> simp [h] <;> omega
          · rw [List.mem_singleton] at hs2
            subst hs2
            simp
        · rw [List.map_append]
          have hmap : (db.subs.map (fun s =>
              if s.mcId == mcId then { s with sortOrder := s.sortOrder + 1 } else s)).map (·.id)
              = db.subs.map (·.id) := by
            rw [List.map_map]
            refine List.map_congr_left (fun s _ => ?_)
            by_cases h : s.mcId = mcId <;> simp [h]
          rw [hmap]
          refine List.Nodup.append hn (List.nodup_singleton _) ?_
          intro x hx hx2
          rw [List.map_singleton, List.mem_singleton] at hx2
          subst hx2
          obtain ⟨t, ht, hti⟩ := List.mem_map.mp hx
          have hlt := hb t ht
          have heq : t.id = db.nextSubId := hti
          omega
        · intro mc
          unfold blankCount
          rw [List.countP_append, List.countP_map]
          have hcong : List.countP ((fun s => s.mcId == mc && s.name == "") ∘ (fun s =>
              if s.mcId == mcId then { s with sortOrder := s.sortOrder + 1 } else s)) db.subs
              = List.countP (fun s => s.mcId == mc && s.name == "") db.subs := by
            refine List.countP_congr (fun x _ => ?_)
            by_cases h : x.mcId = mcId <;> simp [Function.comp, h]
          rw [hcong]
          by_cases hmc : mc = mcId
          · subst hmc
            have hzero : List.countP (fun s => s.mcId == mc && s.name == "") db.subs = 0 := by
              refine List.countP_eq_zero.mpr (fun x hx => ?_)
              have := List.find?_eq_none.mp hf x hx
              exact this
            rw [hzero]
            simp
          · have hone : List.countP (fun s => s.mcId == mc && s.name == "")
                ([⟨db.nextSubId, mcId, "", 1⟩] : List SubRow) = 0 := by
              simp [Ne.symm hmc]
            rw [hone]
            simpa using hc mc
      · simp only [hf]
        exact ⟨hb, hn, hc⟩
    · simp only [Database.create_subcategory, hname]
      rw [if_neg Bool.false_ne_true]
      split
      · exact ⟨hb, hn, hc⟩
      · refine ⟨?_, ?_, ?_⟩
        · intro s hs
          show s.id < db.nextSubId + 1
          rcases List.mem_append.mp hs with hs1 | hs2
          · have := hb s hs1
            omega
          · rw [List.mem_singleton] at hs2
            subst hs2
            simp
        · rw [List.map_append]
          refine List.Nodup.append hn (List.nodup_singleton _) ?_
          intro x hx hx2
          rw [List.map_singleton, List.mem_singleton] at hx2
          subst hx2
          obtain ⟨t, ht, hti⟩ := List.mem_map.mp hx
          have hlt := hb t ht
          have heq : t.id = db.nextSubId := hti
          omega
        · intro mc
          unfold blankCount
          rw [List.countP_append]
          have hone : List.countP (fun s => s.mcId == mc && s.name == "")
              ([⟨db.nextSubId, mcId, name,
                sqlMax ((db.subs.filter (fun s => s.mcId == mcId)).map (·.sortOrder)) + 1⟩] :
                List SubRow) = 0 := by
            simp only [List.countP_singleton]
            simp only [Bool.and_eq_true, beq_iff_eq] at hname ⊢
            simp [fun h => hname h]
          rw [hone]
          simpa using hc mc
  | update_subcategory_name subId newName =>
    obtain ⟨hb, hn, hc⟩ := hinv
    simp only [Database.update_subcategory_name]
    split
    · exact ⟨hb, hn, hc⟩
    · rename_i hok
      refine ⟨?_, ?_, ?_⟩
      · intro s hs
        show s.id < db.nextSubId
        obtain ⟨t, ht, rfl⟩ := List.mem_map.mp hs
        have hlt := hb t ht
        by_cases h : t.id = subId <;> simp [h] <;> omega
      · show ((db.subs.map fun s => if s.id == subId then { s with name := newName } else s).map
            (fun s => s.id)).Nodup
        rw [map_id_preserved]
        · exact hn
        · intro s
          by_cases h : s.id = subId <;> simp [h]
      · intro mc
        show List.countP (fun s => s.mcId == mc && s.name == "")
          (db.subs.map fun s => if s.id == subId then { s with name := newName } else s) ≤ 1
        rw [List.countP_map]
        by_cases hnew : newName = ""
        · subst hnew
          by_cases hA : ∃ r ∈ db.subs, r.id = subId ∧ r.mcId = mc
          · obtain ⟨r, hr, hrid, hrmc⟩ := hA
            have hle : List.countP ((fun s => s.mcId == mc && s.name == "") ∘ fun s =>
                if s.id == subId then { s with name := "" } else s) db.subs
                ≤ List.countP (fun s => (s.id == subId) && (s.mcId == mc)) db.subs
                  + List.countP (fun s => (s.id != subId) && (s.mcId == mc && s.name == "")) db.subs := by
              refine le_trans (List.countP_mono_left (fun x _ hx => ?_)) (countP_or_le _ _ _)
              by_cases h : x.id = subId <;>
                simp only [Function.comp, h, if_pos, if_neg, beq_iff_eq, beq_self_eq_true,
                  Bool.and_eq_true, Bool.or_eq_true, Bool.not_eq_true', beq_eq_false_iff_ne,
                  ne_eq] at hx ⊢ <;> simp_all
            have hq2 : List.countP (fun s => (s.id != subId) && (s.mcId == mc && s.name == ""))
                db.subs = 0 := by
              refine List.countP_eq_zero.mpr (fun x hx hxp => ?_)
              simp only [Bool.and_eq_true, Bool.not_eq_true', beq_eq_false_iff_ne, ne_eq,
                beq_iff_eq, bne_iff_ne] at hxp
              refine hok ?_
              refine List.any_eq_true.mpr ⟨r, hr, ?_⟩
              simp only [Bool.and_eq_true, beq_iff_eq, bne_iff_ne, ne_eq]
              refine ⟨by simp [hrid], ?_⟩
              refine List.any_eq_true.mpr ⟨x, hx, ?_⟩
              simp only [Bool.and_eq_true, beq_iff_eq, bne_iff_ne, ne_eq]
              exact ⟨⟨by rw [hrid]; exact hxp.1, by rw [hxp.2.1, hrmc]⟩, hxp.2.2⟩
            have hq1 : List.countP (fun s => (s.id == subId) && (s.mcId == mc)) db.subs ≤ 1 := by
              refine le_trans (List.countP_mono_left (fun x _ hx => ?_)) (countP_key_le_one
                (fun s => s.id) db.subs hn subId)
              simp only [Bool.and_eq_true] at hx
              exact hx.1
            omega
          · refine le_trans (List.countP_mono_left (fun x hxm hx => ?_)) (hc mc)
            by_cases h : x.id = subId
            · exfalso
              simp only [Function.comp, h, beq_self_eq_true, if_true, Bool.and_eq_true,
                beq_iff_eq] at hx
              exact hA ⟨x, hxm, h, hx.1⟩
            · simpa only [Function.comp, h, if_neg, beq_iff_eq, if_false] using hx
        · refine le_trans (List.countP_mono_left (fun x _ hx => ?_)) (hc mc)
          by_cases h : x.id = subId
          · exfalso
            simp only [Function.comp, h, beq_self_eq_true, if_true, Bool.and_eq_true,
              beq_iff_eq] at hx
            exact hnew hx.2
          · simpa only [Function.comp, h, if_neg, beq_iff_eq, if_false] using hx
  | move_subcategory subId targetMcId targetSort =>
    obtain ⟨hb, hn, hc⟩ := hinv
    simp only [Database.move_subcategory]
    split
    · exact ⟨hb, hn, hc⟩
    · rename_i row hfind
      have hrowmem : row ∈ db.subs := List.mem_of_find?_eq_some hfind
      have hrowid : row.id = subId := by simpa using List.find?_some hfind
      split
      · rename_i hne
        split
        · exact ⟨hb, hn, hc⟩
        · rename_i hok
          have hgne : targetMcId ≠ row.mcId := fun hh => hne hh.symm
          have hform : ((db.subs.map (fun s =>
              if s.id == subId then
                { s with
                    mcId := targetMcId,
                    sortOrder :=
                      sqlMax ((db.subs.filter (fun s => s.mcId == targetMcId)).map (·.sortOrder)) + 1 }
              else s)).map (fun s =>
              if s.mcId == row.mcId && s.sortOrder > row.sortOrder then
                { s with sortOrder := s.sortOrder - 1 } else s))
              = db.subs.map (fun x =>
                if x.id = subId then
                  { x with
                      mcId := targetMcId,
                      sortOrder :=
                        sqlMax ((db.subs.filter (fun s => s.mcId == targetMcId)).map (·.sortOrder)) + 1 }
                else if x.mcId = row.mcId ∧ row.sortOrder < x.sortOrder then
                  { x with sortOrder := x.sortOrder - 1 }
                else x) := by
            rw [List.map_map]
            refine List.map_congr_left (fun x _ => ?_)
            by_cases hxid : x.id = subId
            · simp [hxid, Function.comp, hgne]
            · by_cases hsub2 : x.mcId = row.mcId
              · by_cases hlt : row.sortOrder < x.sortOrder
                · simp [hxid, hsub2, hlt, Function.comp]
                · simp [hxid, hsub2, hlt, Function.comp]
              · simp [hxid, hsub2, Function.comp]
          rw [hform]
          refine ⟨?_, ?_, ?_⟩
          · intro s hs
            show s.id < db.nextSubId
            obtain ⟨t, ht, rfl⟩ := List.mem_map.mp hs
            have hlt := hb t ht
            split_ifs <;> simp <;> omega
          · show List.Nodup _
            refine nodup_ids_map _ (fun s => ?_) hn
            split_ifs <;> rfl
          · intro mc
            unfold blankCount
            rw [List.countP_map]
            refine le_trans (@List.countP_mono_left SubRow _
              (fun x => (if x.id = subId then targetMcId else x.mcId) == mc && x.name == "")
              db.subs (fun x hxm hx => ?_)) ?_
            · show ((if x.id = subId then targetMcId else x.mcId) == mc && x.name == "") = true
              simp only [Function.comp] at hx
              by_cases h : x.id = subId
              · rw [if_pos h] at hx ⊢
                simpa using hx
              · rw [if_neg h] at hx ⊢
                split_ifs at hx with hcond
                · simpa using hx
                · exact hx
            · by_cases hmc : mc = targetMcId
              · subst hmc
                refine le_trans (le_trans (List.countP_mono_left (fun x hxm hx => ?_))
                  (countP_or_le db.subs (fun z => (z.id == subId) && (z.name == ""))
                    (fun z => (z.id != subId) && (z.mcId == mc && z.name == "")))) ?_
                · simp only [Bool.and_eq_true, beq_iff_eq, Bool.or_eq_true, bne_iff_ne, ne_eq,
                    Bool.not_eq_true'] at hx ⊢
                  by_cases h : x.id = subId
                  · left
                    rw [if_pos h] at hx
                    exact ⟨h, hx.2⟩
                  · right
                    rw [if_neg h] at hx
                    exact ⟨by simpa using h, hx⟩
                · by_cases hrn : row.name = ""
                  · have hq2 : List.countP
                        (fun z => (z.id != subId) && (z.mcId == mc && z.name == ""))
                        db.subs = 0 := by
                      refine List.countP_eq_zero.mpr (fun x hx hxp => ?_)
                      simp only [Bool.and_eq_true, bne_iff_ne, ne_eq, beq_iff_eq] at hxp
                      refine hok (List.any_eq_true.mpr ⟨x, hx, ?_⟩)
                      simp only [Bool.and_eq_true, bne_iff_ne, ne_eq, beq_iff_eq]
                      exact ⟨⟨hxp.1, hxp.2.1⟩, by rw [hxp.2.2, hrn]⟩
                    have hq1 : List.countP (fun z => (z.id == subId) && (z.name == "")) db.subs
                        ≤ 1 := by
                      refine le_trans (List.countP_mono_left (fun x _ hx => ?_))
                        (countP_key_le_one (fun z => z.id) db.subs hn subId)
                      simp only [Bool.and_eq_true] at hx
                      exact hx.1
                    omega
                  · have hq1 : List.countP (fun z => (z.id == subId) && (z.name == "")) db.subs
                        = 0 := by
                      have h := countP_unique (fun z : SubRow => z.id) db.subs hn row hrowmem
                        (fun z => z.name == "")
                      rw [hrowid] at h
                      rw [h, if_neg (by simpa using hrn)]
                    have hq2 : List.countP
                        (fun z => (z.id != subId) && (z.mcId == mc && z.name == ""))
                        db.subs ≤ 1 := by
                      refine le_trans (List.countP_mono_left (fun x _ hx => ?_)) (hc mc)
                      simp only [Bool.and_eq_true] at hx
                      simp [hx.2.1, hx.2.2]
                    omega
              · refine le_trans (List.countP_mono_left (fun x hxm hx => ?_)) (hc mc)
                simp only [Bool.and_eq_true, beq_iff_eq] at hx ⊢
                by_cases h : x.id = subId
                · rw [if_pos h] at hx
                  exact absurd hx.1.symm hmc
                · rw [if_neg h] at hx
                  exact hx
      · split
        · split
          · refine subInv_map_preserving _ (List.map_map _ _ _) rfl ?_ ?_ ?_ ⟨hb, hn, hc⟩ <;>
              (intro s; simp only [Function.comp]; split_ifs <;> rfl)
          · refine subInv_map_preserving _ (List.map_map _ _ _) rfl ?_ ?_ ?_ ⟨hb, hn, hc⟩ <;>
              (intro s; simp only [Function.comp]; split_ifs <;> rfl)
        · exact ⟨hb, hn, hc⟩

/-- The invariant holds in the fresh database. -/
theorem subInv_empty : SubInv DB.empty := by
  refine ⟨by simp [DB.empty], by simp [DB.empty], fun mc => ?_⟩
  simp [blankCount, DB.empty]

/-- The invariant holds in every reachable state. -/
theorem subInv_reachable {db : DB} (h : Reachable db) : SubInv db := by
  induction h with
  | refl => exact subInv_empty
  | tail hsteps hstep ih => exact subInv_step hstep ih

/-- C5: in every state reachable by repository calls, each heading has at
most one blank-named subheading; and calling `create_subcategory` with the
empty name twice on the same heading returns the same (defined) id both
times, in any state. -/
theorem c5_blank_subheading_idempotent :
    (∀ db, Reachable db → ∀ mcId, blankCount db mcId ≤ 1) ∧
    (∀ (db : DB) (mcId : Nat),
      (∃ i, (Database.create_subcategory db mcId "").2 = some i) ∧
      (Database.create_subcategory (Database.create_subcategory db mcId "").1 mcId "").2
        = (Database.create_subcategory db mcId "").2) := by
  constructor
  · exact fun db h mcId => (subInv_reachable h).2.2 mcId
  · intro db mcId
    rcases hf : db.subs.find? (fun s => s.mcId == mcId && s.name == "") with _ | e
    · constructor
      · exact ⟨db.nextSubId, by simp [Database.create_subcategory, hf]⟩
      · have hsubs : (Database.create_subcategory db mcId "").1.subs =
            (db.subs.map (fun s =>
              if s.mcId == mcId then { s with sortOrder := s.sortOrder + 1 } else s))
              ++ [⟨db.nextSubId, mcId, "", 1⟩] := by
          simp [Database.create_subcategory, hf]
        have hnone : (db.subs.map (fun s =>
            if s.mcId == mcId then { s with sortOrder := s.sortOrder + 1 } else s)).find?
              (fun s => s.mcId == mcId && s.name == "") = none := by
          rw [List.find?_map]
          have hcong : db.subs.find? ((fun s => s.mcId == mcId && s.name == "") ∘ (fun s =>
              if s.mcId == mcId then { s with sortOrder := s.sortOrder + 1 } else s))
              = db.subs.find? (fun s => s.mcId == mcId && s.name == "") := by
            refine find?_congr_pointwise _ _ _ (fun x _ => ?_)
            by_cases h : x.mcId = mcId <;> simp [Function.comp, h]
          rw [hcong, hf]
          rfl
        have hfind2 : (Database.create_subcategory db mcId "").1.subs.find?
            (fun s => s.mcId == mcId && s.name == "") = some ⟨db.nextSubId, mcId, "", 1⟩ := by
          rw [hsubs, List.find?_append, hnone]
          simp
        have key : ∀ db' : DB, db'.subs.find? (fun s => s.mcId == mcId && s.name == "")
            = some ⟨db.nextSubId, mcId, "", 1⟩ →
            (Database.create_subcategory db' mcId "").2 = some db.nextSubId := by
          intro db' hfind
          simp [Database.create_subcategory, hfind]
        have hfst : (Database.create_subcategory db mcId "").2 = some db.nextSubId := by
          simp [Database.create_subcategory, hf]
        rw [key _ hfind2, hfst]
    · constructor
      · exact ⟨e.id, by simp [Database.create_subcategory, hf]⟩
      · have heq : (Database.create_subcategory db mcId "").1 = db := by
          simp [Database.create_subcategory, hf]
        rw [heq]

/-- C5 (witness): a concrete reachable state (project, heading, blank
subheading created from the fresh database) satisfies the at-most-one-blank
bound, and creating the blank subheading there returns an id. -/
theorem c5_witness : blankCount stepDB3 1 ≤ 1 ∧
    (∃ i, (Database.create_subcategory stepDB3 1 "").2 = some i) :=
  ⟨c5_blank_subheading_idempotent.1 stepDB3
    (Relation.ReflTransGen.tail (Relation.ReflTransGen.tail (Relation.ReflTransGen.tail
      Relation.ReflTransGen.refl (Step.create_project DB.empty "Alpha"))
      (Step.create_major_category stepDB1 1 "H"))
      (Step.create_subcategory stepDB2 1 "")) 1,
    (c5_blank_subheading_idempotent.2 stepDB3 1).1⟩

/-- Every copied sentence is attached to the target subheading, with ids
assigned sequentially from `startId`. -/
theorem copySentList_mem : ∀ (l : List SentRow) (startId target : Nat),
    ∀ x ∈ copySentList l startId target, x.subId = target ∧ startId ≤ x.id := by
  intro l
  induction l with
  | nil => intro startId target x hx; cases hx
  | cons a as ih =>
    intro startId target x hx
    rcases List.mem_cons.mp hx with rfl | hx'
    · exact ⟨rfl, le_refl _⟩
    · obtain ⟨h1, h2⟩ := ih (startId + 1) target x hx'
      exact ⟨h1, by omega⟩

/-- Copying preserves the (content, position) sequence of a sentence
list. -/
theorem copySentList_pairs : ∀ (l : List SentRow) (startId target : Nat),
    (copySentList l startId target).map (fun x => (x.content, x.sortOrder))
      = l.map (fun x => (x.content, x.sortOrder)) := by
  intro l
  induction l with
  | nil => intro startId target; rfl
  | cons a as ih =>
    intro startId target
    simp only [copySentList, List.map_cons, ih]

/-- Structural specification of `copySubsWithSents`: as many copies as
originals; copies attached to `cat` with ids in `[a, a + length)`; copied
sentences with subheading ids in the same range and ids from `b` on; and a
pointwise correspondence carrying names, positions and per-subheading
sentence sequences. -/
theorem copySubs_spec (db : DB) : ∀ (l : List SubRow) (a b cat : Nat),
    ((copySubsWithSents db l a b cat).1.length = l.length) ∧
    (∀ s ∈ (copySubsWithSents db l a b cat).1,
        s.mcId = cat ∧ a ≤ s.id ∧ s.id < a + l.length) ∧
    (∀ x ∈ (copySubsWithSents db l a b cat).2,
        a ≤ x.subId ∧ x.subId < a + l.length ∧ b ≤ x.id) ∧
    List.Forall₂ (fun orig copy =>
        a ≤ copy.id ∧ copy.name = orig.name ∧ copy.sortOrder = orig.sortOrder ∧
        ∀ big : List SentRow, (∀ y ∈ big, y.subId ≠ copy.id) →
          ((big ++ (copySubsWithSents db l a b cat).2).filter
              (fun x => x.subId == copy.id)).map (fun x => (x.content, x.sortOrder))
            = (db.sents.filter (fun x => x.subId == orig.id)).map
                (fun x => (x.content, x.sortOrder)))
      l (copySubsWithSents db l a b cat).1 := by
  intro l
  induction l with
  | nil =>
    intro a b cat
    exact ⟨rfl, by simp [copySubsWithSents], by simp [copySubsWithSents],
      by simp [copySubsWithSents]⟩
  | cons s rest ih =>
    intro a b cat
    obtain ⟨ihlen, ihsub, ihsent, ihrel⟩ :=
      ih (a + 1) (b + (db.sents.filter (fun x => x.subId == s.id)).length) cat
    refine ⟨?_, ?_, ?_, ?_⟩
    · simp only [copySubsWithSents, List.length_cons, ihlen]
    · intro t ht
      simp only [copySubsWithSents, List.mem_cons] at ht
      rcases ht with rfl | ht'
      · exact ⟨rfl, le_refl _, by simp⟩
      · obtain ⟨h1, h2, h3⟩ := ihsub t ht'
        exact ⟨h1, by omega, by simp only [List.length_cons]; omega⟩
    · intro x hx
      simp only [copySubsWithSents, List.mem_append] at hx
      rcases hx with hx' | hx'
      · obtain ⟨h1, h2⟩ := copySentList_mem _ _ _ x hx'
        refine ⟨le_of_eq h1.symm, ?_, by omega⟩
        rw [h1]
        simp only [List.length_cons]
        omega
      · obtain ⟨h1, h2, h3⟩ := ihsent x hx'
        exact ⟨by omega, by simp only [List.length_cons]; omega, by omega⟩
    · have hexp : (copySubsWithSents db (s :: rest) a b cat).1
          = ⟨a, cat, s.name, s.sortOrder⟩ ::
            (copySubsWithSents db rest (a + 1)
              (b + (db.sents.filter (fun x => x.subId == s.id)).length) cat).1 := rfl
      rw [hexp]
      refine List.Forall₂.cons ⟨le_refl _, rfl, rfl, ?_⟩ (ihrel.imp ?_)
      · intro big hbig
        show ((big ++ (copySentList (db.sents.filter (fun x => x.subId == s.id)) b a
            ++ (copySubsWithSents db rest (a + 1)
              (b + (db.sents.filter (fun x => x.subId == s.id)).length) cat).2)).filter
            (fun x => x.subId == a)).map (fun x => (x.content, x.sortOrder))
          = (db.sents.filter (fun x => x.subId == s.id)).map (fun x => (x.content, x.sortOrder))
        rw [List.filter_append, List.filter_append]
        have hbig0 : big.filter (fun x => x.subId == a) = [] :=
          List.filter_eq_nil_iff.mpr (fun y hy => by simpa using hbig y hy)
        have hcop : (copySentList (db.sents.filter (fun x => x.subId == s.id)) b a).filter
            (fun x => x.subId == a)
            = copySentList (db.sents.filter (fun x => x.subId == s.id)) b a :=
          List.filter_eq_self.mpr (fun y hy => by
            simpa using (copySentList_mem _ _ _ y hy).1)
        have hrest0 : ((copySubsWithSents db rest (a + 1)
            (b + (db.sents.filter (fun x => x.subId == s.id)).length) cat).2).filter
            (fun x => x.subId == a) = [] :=
          List.filter_eq_nil_iff.mpr (fun y hy => by
            have := (ihsent y hy).1
            simp only [beq_iff_eq]
            omega)
        rw [hbig0, hcop, hrest0, List.nil_append, List.append_nil, copySentList_pairs]
      · intro orig copy hP
        obtain ⟨hid, hnm, hso, hbigprop⟩ := hP
        refine ⟨by omega, hnm, hso, ?_⟩
        intro big hbig
        have hbig' : ∀ y ∈ big ++ copySentList (db.sents.filter (fun x => x.subId == s.id)) b a,
            y.subId ≠ copy.id := by
          intro y hy
          rcases List.mem_append.mp hy with hy' | hy'
          · exact hbig y hy'
          · have := (copySentList_mem _ _ _ y hy').1
            omega
        have h := hbigprop (big ++ copySentList (db.sents.filter (fun x => x.subId == s.id)) b a)
          hbig'
        rw [List.append_assoc] at h
        exact h

/-- C9: `copy_heading_before(h, before_h)` (modelled from the spec, no
implementation exists under src/) returns a fresh heading id, places the
copy at `before_h`'s old position, shifts `before_h` (and every later
heading of the project) down by exactly one, copies exactly as many
subheadings as `h` has — pointwise equal in name and position, with fresh
ids, and with sentence lists equal in content and position to the
originals' — and gives every copied sentence a fresh id. -/
theorem c9_copy_heading_before_spec (db : DB) (hId beforeId : Nat) (hrow brow : CatRow)
    (hh : db.cats.find? (fun c => c.id == hId) = some hrow)
    (hbf : db.cats.find? (fun c => c.id == beforeId) = some brow)
    (hproj : hrow.projectId = brow.projectId)
    (hcb : ∀ c ∈ db.cats, c.id < db.nextCatId)
    (hsb : ∀ s ∈ db.subs, s.id < db.nextSubId)
    (hsmc : ∀ s ∈ db.subs, s.mcId < db.nextCatId)
    (hxsub : ∀ x ∈ db.sents, x.subId < db.nextSubId)
    (hxid : ∀ x ∈ db.sents, x.id < db.nextSentId) :
    (copy_heading_before db hId beforeId).2 = some db.nextCatId ∧
    (∀ c ∈ db.cats, c.id ≠ db.nextCatId) ∧
    (⟨db.nextCatId, brow.projectId, hrow.name, brow.sortOrder⟩ : CatRow)
      ∈ (copy_heading_before db hId beforeId).1.cats ∧
    ({ brow with sortOrder := brow.sortOrder + 1 } : CatRow)
      ∈ (copy_heading_before db hId beforeId).1.cats ∧
    (∀ c ∈ db.cats,
      (if c.projectId = brow.projectId ∧ brow.sortOrder ≤ c.sortOrder then
        ({ c with sortOrder := c.sortOrder + 1 } : CatRow) else c)
        ∈ (copy_heading_before db hId beforeId).1.cats) ∧
    List.Forall₂ (copyMatches db (copy_heading_before db hId beforeId).1)
      (db.subs.filter (fun s => s.mcId == hId))
      ((copy_heading_before db hId beforeId).1.subs.filter
        (fun s => s.mcId == db.nextCatId)) ∧
    ((copy_heading_before db hId beforeId).1.subs.filter
        (fun s => s.mcId == db.nextCatId)).length
      = (db.subs.filter (fun s => s.mcId == hId)).length ∧
    (∀ x ∈ (copy_heading_before db hId beforeId).1.sents,
      x ∈ db.sents ∨ db.nextSentId ≤ x.id) := by
  have hcats : (copy_heading_before db hId beforeId).1.cats =
      (db.cats.map (fun c =>
        if c.projectId == brow.projectId && c.sortOrder ≥ brow.sortOrder then
          { c with sortOrder := c.sortOrder + 1 } else c))
        ++ [⟨db.nextCatId, brow.projectId, hrow.name, brow.sortOrder⟩] := by
    simp [copy_heading_before, hh, hbf]
  have hsubs2 : (copy_heading_before db hId beforeId).1.subs =
      db.subs ++ (copySubsWithSents db (db.subs.filter (fun s => s.mcId == hId))
        db.nextSubId db.nextSentId db.nextCatId).1 := by
    simp [copy_heading_before, hh, hbf]
  have hsents2 : (copy_heading_before db hId beforeId).1.sents =
      db.sents ++ (copySubsWithSents db (db.subs.filter (fun s => s.mcId == hId))
        db.nextSubId db.nextSentId db.nextCatId).2 := by
    simp [copy_heading_before, hh, hbf]
  obtain ⟨speclen, specsub, specsent, specrel⟩ :=
    copySubs_spec db (db.subs.filter (fun s => s.mcId == hId))
      db.nextSubId db.nextSentId db.nextCatId
  have hfilter : (copy_heading_before db hId beforeId).1.subs.filter
      (fun s => s.mcId == db.nextCatId)
      = (copySubsWithSents db (db.subs.filter (fun s => s.mcId == hId))
          db.nextSubId db.nextSentId db.nextCatId).1 := by
    rw [hsubs2, List.filter_append]
    have h1 : db.subs.filter (fun s => s.mcId == db.nextCatId) = [] :=
      List.filter_eq_nil_iff.mpr (fun s hs => by
        have := hsmc s hs
        simp only [beq_iff_eq]
        omega)
    have h2 : (copySubsWithSents db (db.subs.filter (fun s => s.mcId == hId))
        db.nextSubId db.nextSentId db.nextCatId).1.filter
          (fun s => s.mcId == db.nextCatId)
        = (copySubsWithSents db (db.subs.filter (fun s => s.mcId == hId))
          db.nextSubId db.nextSentId db.nextCatId).1 :=
      List.filter_eq_self.mpr (fun s hs => by simpa using (specsub s hs).1)
    rw [h1, h2, List.nil_append]
  refine ⟨by simp [copy_heading_before, hh, hbf], fun c hc => (hcb c hc).ne, ?_, ?_, ?_, ?_, ?_, ?_⟩
  · rw [hcats]
    exact List.mem_append_right _ (List.mem_singleton.mpr rfl)
  · rw [hcats]
    refine List.mem_append_left _ (List.mem_map.mpr ⟨brow, List.mem_of_find?_eq_some hbf, ?_⟩)
    simp
  · intro c hc
    rw [hcats]
    refine List.mem_append_left _ (List.mem_map.mpr ⟨c, hc, ?_⟩)
    by_cases h : c.projectId = brow.projectId ∧ brow.sortOrder ≤ c.sortOrder
    · rw [if_pos h]
      simp [h.1, h.2]
    · rw [if_neg h]
      have : ¬ ((c.projectId == brow.projectId && c.sortOrder ≥ brow.sortOrder) = true) := by
        simp only [Bool.and_eq_true, beq_iff_eq, decide_eq_true_eq, ge_iff_le]
        exact fun hx => h ⟨hx.1, hx.2⟩
      rw [if_neg this]
  · rw [hfilter]
    refine specrel.imp (fun orig copy hP => ?_)
    obtain ⟨hid, hnm, hso, hbigprop⟩ := hP
    refine ⟨hnm, hso, ?_, ?_⟩
    · intro hmem
      obtain ⟨t, ht, hti⟩ := List.mem_map.mp hmem
      have := hsb t ht
      omega
    · rw [hsents2]
      exact hbigprop db.sents (fun y hy => by
        have := hxsub y hy
        omega)
  · rw [hfilter]
    exact speclen
  · intro x hx
    rw [hsents2] at hx
    rcases List.mem_append.mp hx with hx' | hx'
    · exact Or.inl hx'
    · exact Or.inr (specsent x hx').2.2

/-- C9 (witness): copying heading 1 of `fixtureTwoCats` before heading 2
returns the fresh id 3, places the copy at heading 2's old position 2, and
shifts heading 2 down to position 3. -/
theorem c9_witness :
    (copy_heading_before fixtureTwoCats 1 2).2 = some 3 ∧
    (⟨3, 1, "H1", 2⟩ : CatRow) ∈ (copy_heading_before fixtureTwoCats 1 2).1.cats ∧
    (⟨2, 1, "H2", 3⟩ : CatRow) ∈ (copy_heading_before fixtureTwoCats 1 2).1.cats := by
  have h := c9_copy_heading_before_spec fixtureTwoCats 1 2 ⟨1, 1, "H1", 1⟩ ⟨2, 1, "H2", 2⟩
    (by decide) (by decide) rfl (by decide) (by decide) (by decide) (by decide) (by decide)
  exact ⟨h.1, h.2.2.1, h.2.2.2.1⟩

theorem lineLe_trans (a b c : LineRow) (h1 : lineLe a b = true) (h2 : lineLe b c = true) :
    lineLe a c = true := by
  simp only [lineLe, decide_eq_true_eq] at h1 h2 ⊢
  omega

theorem lineLe_total (a b : LineRow) : (lineLe a b || lineLe b a) = true := by
  simp only [lineLe, Bool.or_eq_true, decide_eq_true_eq]
  omega

theorem lineLt_of_lineLe_key_ne (a b : LineRow) (h : lineLe a b = true)
    (hk : lineKey a ≠ lineKey b) : lineLt a b := by
  simp only [lineLe, decide_eq_true_eq] at h
  have hk2 : ¬(a.mcSort = b.mcSort ∧ a.scSort = b.scSort ∧ a.sSort = b.sSort) :=
    fun hx => hk (by simp [lineKey, hx.1, hx.2.1, hx.2.2])
  simp only [lineLt]
  omega

theorem lineLt_key {a b a2 b2 : LineRow} (ha : lineKey a = lineKey a2)
    (hb : lineKey b = lineKey b2) (h : lineLt a b) : lineLt a2 b2 := by
  rw [lineKey, lineKey, Prod.mk.injEq, Prod.mk.injEq] at ha hb
  simp only [lineLt] at h ⊢
  omega

theorem pairwise_lineLt_of_le : ∀ (l : List LineRow),
    l.Pairwise (fun a b => lineLe a b = true) → (l.map lineKey).Nodup → l.Pairwise lineLt
  | [], _, _ => List.Pairwise.nil
  | x :: xs, hle, hn => by
    rw [List.pairwise_cons] at hle ⊢
    rw [List.map_cons, List.nodup_cons] at hn
    refine ⟨fun b hb => ?_, pairwise_lineLt_of_le xs hle.2 hn.2⟩
    refine lineLt_of_lineLe_key_ne x b (hle.1 b hb) (fun hk => hn.1 ?_)
    rw [hk]
    exact List.mem_map_of_mem lineKey hb

theorem lineShift_pos (c : Nat) (t : Int) (r : LineRow) (h1 : r.scId = c) (h2 : t ≤ r.sSort) :
    lineShift c t r = { r with sSort := r.sSort + 1 } := by
  unfold lineShift
  rw [if_pos]
  simp [h1, h2]

theorem lineShift_neg (c : Nat) (t : Int) (r : LineRow) (h : ¬(r.scId = c ∧ t ≤ r.sSort)) :
    lineShift c t r = r := by
  unfold lineShift
  rw [if_neg]
  simp only [Bool.and_eq_true, beq_iff_eq, decide_eq_true_eq, ge_iff_le, not_and]
  exact fun a b => h ⟨a, b⟩

theorem lineShift_proj (c : Nat) (t : Int) (r : LineRow) :
    (lineShift c t r).sid = r.sid ∧ (lineShift c t r).content = r.content ∧
    (lineShift c t r).mcSort = r.mcSort ∧ (lineShift c t r).scSort = r.scSort ∧
    (lineShift c t r).scId = r.scId ∧ (lineShift c t r).mcId = r.mcId ∧
    (lineShift c t r).mcName = r.mcName ∧ (lineShift c t r).scName = r.scName := by
  unfold lineShift
  split <;> exact ⟨rfl, rfl, rfl, rfl, rfl, rfl, rfl, rfl⟩

theorem lineShift_sSort (c : Nat) (t : Int) (r : LineRow) :
    ((lineShift c t r).sSort = r.sSort + 1 ∧ r.scId = c ∧ t ≤ r.sSort) ∨
    ((lineShift c t r).sSort = r.sSort ∧ ¬(r.scId = c ∧ t ≤ r.sSort)) := by
  unfold lineShift
  split
  next h =>
    simp only [Bool.and_eq_true, beq_iff_eq, decide_eq_true_eq, ge_iff_le] at h
    exact Or.inl ⟨rfl, h.1, h.2⟩
  next h =>
    simp only [Bool.and_eq_true, beq_iff_eq, decide_eq_true_eq, ge_iff_le, not_and] at h
    exact Or.inr ⟨rfl, fun hx => h hx.1 hx.2⟩

theorem lineLt_shift_right {a b : LineRow} (c : Nat) (t : Int) (h : lineLt a b) :
    lineLt a (lineShift c t b) := by
  obtain ⟨_, _, hm, hs, _, _, _, _⟩ := lineShift_proj c t b
  rcases lineShift_sSort c t b with ⟨he, _, _⟩ | ⟨he, _⟩ <;>
    (simp only [lineLt] at h ⊢; rw [hm, hs, he]; omega)

theorem joined_lines_eq_flatMap (db : DB) (pid : Nat) :
    Database.joined_lines db pid = db.sents.flatMap (sentLines db pid) := rfl

theorem mem_joined {db : DB} {pid : Nat} {r : LineRow}
    (hr : r ∈ Database.joined_lines db pid) :
    ∃ s, s ∈ db.sents ∧ ∃ sc, sc ∈ db.subs ∧ ∃ mc, mc ∈ db.cats ∧
      sc.id = s.subId ∧ mc.id = sc.mcId ∧ mc.projectId = pid ∧
      r = ⟨s.id, mc.id, mc.name, sc.id, sc.name, s.content,
           mc.sortOrder, sc.sortOrder, s.sortOrder⟩ := by
  unfold Database.joined_lines at hr
  simp only [List.mem_flatMap, List.mem_filter, List.mem_map, Bool.and_eq_true,
    beq_iff_eq] at hr
  obtain ⟨s, hs, sc, ⟨hscmem, hscid⟩, mc, ⟨hmcmem, hmcid, hmcpid⟩, hrow⟩ := hr
  exact ⟨s, hs, sc, hscmem, mc, hmcmem, hscid, hmcid, hmcpid, hrow.symm⟩

theorem sentLines_shift (db : DB) (pid c2 : Nat) (t2 : Int) (x : SentRow) :
    sentLines db pid (if x.subId == c2 && x.sortOrder ≥ t2 then
        { x with sortOrder := x.sortOrder + 1 } else x)
      = (sentLines db pid x).map (lineShift c2 t2) := by
  unfold sentLines
  rw [List.map_flatMap]
  by_cases h1 : x.subId = c2 ∧ t2 ≤ x.sortOrder
  · rw [if_pos (by simp [h1.1, h1.2])]
    refine List.flatMap_congr (fun sc hsc => ?_)
    rw [List.map_map]
    refine List.map_congr_left (fun mc hmc => ?_)
    have hscid : sc.id = x.subId := by
      simpa using (List.mem_filter.mp hsc).2
    rw [Function.comp_apply,
      lineShift_pos c2 t2 _ (by exact hscid.trans h1.1) h1.2]
  · rw [if_neg (by
      simp only [Bool.and_eq_true, beq_iff_eq, decide_eq_true_eq, ge_iff_le, not_and]
      exact fun a b => h1 ⟨a, b⟩)]
    refine List.flatMap_congr (fun sc hsc => ?_)
    rw [List.map_map]
    refine (List.map_congr_left (fun mc hmc => ?_)).symm
    have hscid : sc.id = x.subId := by
      simpa using (List.mem_filter.mp hsc).2
    rw [Function.comp_apply, lineShift_neg]
    intro hx
    exact h1 ⟨hscid.symm.trans hx.1, hx.2⟩

theorem joined_shift (db : DB) (pid c2 : Nat) (t2 : Int) :
    ((db.sents.map (fun x => if x.subId == c2 && x.sortOrder ≥ t2 then
        { x with sortOrder := x.sortOrder + 1 } else x)).flatMap (sentLines db pid))
      = (Database.joined_lines db pid).map (lineShift c2 t2) := by
  rw [List.flatMap_map, joined_lines_eq_flatMap, List.map_flatMap]
  exact List.flatMap_congr (fun x hx => sentLines_shift db pid c2 t2 x)

theorem filter_singleton_of_nodup {α : Type} (f : α → Nat) :
    ∀ (l : List α), (l.map f).Nodup → ∀ (p : α → Bool) (a : α), a ∈ l → p a = true →
      (∀ x ∈ l, p x = true → f x = f a) → l.filter p = [a]
  | [], _, p, a, ha, _, _ => absurd ha (List.not_mem_nil a)
  | x :: xs, hn, p, a, ha, hpa, himp => by
    rw [List.map_cons, List.nodup_cons] at hn
    by_cases hpx : p x = true
    · have hfx : f x = f a := himp x (List.mem_cons_self _ _) hpx
      rcases List.mem_cons.mp ha with rfl | haxs
      · rw [List.filter_cons_of_pos hpx]
        have hnil : xs.filter p = [] := by
          rw [List.filter_eq_nil_iff]
          intro y hy hpy
          exact hn.1 (by
            rw [← himp y (List.mem_cons_of_mem _ hy) hpy]
            exact List.mem_map_of_mem f hy)
        rw [hnil]
      · exact absurd (by rw [hfx]; exact List.mem_map_of_mem f haxs) hn.1
    · have hax : a ≠ x := fun he => hpx (he ▸ hpa)
      rcases List.mem_cons.mp ha with rfl | haxs
      · exact absurd rfl hax
      · rw [List.filter_cons_of_neg (by simpa using hpx)]
        exact filter_singleton_of_nodup f xs hn.2 p a haxs hpa
          (fun y hy hpy => himp y (List.mem_cons_of_mem _ hy) hpy)

theorem sentLines_fresh (db : DB) (pid : Nat) (target : LineRow)
    (htm : target ∈ Database.joined_lines db pid)
    (Hsub : (db.subs.map (fun u => u.id)).Nodup)
    (Hcat : (db.cats.map (fun u => u.id)).Nodup)
    (nid : Nat) (content : String) :
    sentLines db pid ⟨nid, target.scId, content, target.sSort⟩
      = [⟨nid, target.mcId, target.mcName, target.scId, target.scName, content,
          target.mcSort, target.scSort, target.sSort⟩] := by
  obtain ⟨s, hs, sc, hsc, mc, hmc, hid1, hid2, hid3, hteq⟩ := mem_joined htm
  subst hteq
  unfold sentLines
  have hfil1 : db.subs.filter (fun u => u.id == sc.id) = [sc] :=
    filter_singleton_of_nodup (fun u => u.id) db.subs Hsub _ sc hsc (by simp)
      (fun y hy hpy => by simpa using hpy)
  have hfil2 : db.cats.filter (fun u => u.id == sc.mcId && u.projectId == pid) = [mc] :=
    filter_singleton_of_nodup (fun u => u.id) db.cats Hcat _ mc hmc
      (by simp [hid2, hid3])
      (fun y hy hpy => by
        have := (Bool.and_eq_true _ _).mp hpy
        simp only [beq_iff_eq] at this
        show y.id = mc.id
        rw [this.1, hid2])
  show (db.subs.filter (fun u => u.id == sc.id)).flatMap _ = _
  rw [hfil1, List.flatMap_cons, List.flatMap_nil, List.append_nil]
  show (db.cats.filter (fun u => u.id == sc.mcId && u.projectId == pid)).map _ = _
  rw [hfil2]
  rfl

theorem joined_same_sub (db : DB) (pid : Nat)
    (Hsub : (db.subs.map (fun u => u.id)).Nodup)
    (Hcat : (db.cats.map (fun u => u.id)).Nodup) :
    ∀ a ∈ Database.joined_lines db pid, ∀ b ∈ Database.joined_lines db pid,
      a.scId = b.scId → a.scSort = b.scSort ∧ a.mcSort = b.mcSort := by
  intro a ha b hb heq
  obtain ⟨sa, hsa, sca, hsca, mca, hmca, ha1, ha2, ha3, haeq⟩ := mem_joined ha
  obtain ⟨sb, hsb, scb, hscb, mcb, hmcb, hb1, hb2, hb3, hbeq⟩ := mem_joined hb
  subst haeq hbeq
  have hscids : sca.id = scb.id := heq
  have hsceq : sca = scb :=
    List.inj_on_of_nodup_map Hsub hsca hscb hscids
  have hmcids : mca.id = mcb.id := by rw [ha2, hb2, hsceq]
  have hmceq : mca = mcb :=
    List.inj_on_of_nodup_map Hcat hmca hmcb hmcids
  subst hsceq hmceq
  exact ⟨rfl, rfl⟩

theorem lineKey_newLineRow (nid : Nat) (content : String) (target : LineRow) :
    lineKey (newLineRow nid content target) = lineKey target := rfl

theorem shifted_keys_nodup (L : List LineRow) (target : LineRow) (htmemL : target ∈ L)
    (nid : Nat) (content : String)
    (H1 : (L.map lineKey).Nodup)
    (H2 : ∀ a ∈ L, ∀ b ∈ L, a.mcSort = b.mcSort → a.scSort = b.scSort → a.scId = b.scId) :
    ((L.map (lineShift target.scId target.sSort)
      ++ [newLineRow nid content target]).map lineKey).Nodup := by
  rw [List.map_append]
  rw [List.nodup_append]
  refine ⟨?_, by simp, ?_⟩
  · rw [List.map_map]
    show (L.map (lineKey ∘ lineShift target.scId target.sSort)).Pairwise (· ≠ ·)
    rw [List.pairwise_map]
    have hL : L.Pairwise (fun a b => lineKey a ≠ lineKey b) := by
      have h0 : (L.map lineKey).Pairwise (· ≠ ·) := H1
      rwa [List.pairwise_map] at h0
    refine List.Pairwise.imp_of_mem ?_ hL
    intro a b ha hb hne heq
    apply hne
    obtain ⟨_, _, pam, pas, _, _, _, _⟩ := lineShift_proj target.scId target.sSort a
    obtain ⟨_, _, pbm, pbs, _, _, _, _⟩ := lineShift_proj target.scId target.sSort b
    have sa := lineShift_sSort target.scId target.sSort a
    have sb := lineShift_sSort target.scId target.sSort b
    rw [Function.comp_apply, Function.comp_apply, lineKey, lineKey, Prod.mk.injEq,
      Prod.mk.injEq, pam, pas, pbm, pbs] at heq
    obtain ⟨e1, e2, e3⟩ := heq
    have hid := H2 a ha b hb e1 e2
    rw [lineKey, lineKey, Prod.mk.injEq, Prod.mk.injEq]
    exact ⟨e1, e2, by omega⟩
  · rw [List.map_cons, List.map_nil, List.disjoint_singleton]
    intro hx
    rw [List.map_map, List.mem_map] at hx
    obtain ⟨a, haL, heq⟩ := hx
    obtain ⟨_, _, pam, pas, _, _, _, _⟩ := lineShift_proj target.scId target.sSort a
    have sa := lineShift_sSort target.scId target.sSort a
    rw [Function.comp_apply, lineKey_newLineRow, lineKey, lineKey, Prod.mk.injEq,
      Prod.mk.injEq, pam, pas] at heq
    obtain ⟨e1, e2, e3⟩ := heq
    have hid := H2 a haL target htmemL e1 e2
    rcases sa with ⟨f1, f2, f3⟩ | ⟨f1, f2⟩
    · omega
    · have hng : ¬ target.sSort ≤ a.sSort := fun hle => f2 ⟨hid, hle⟩
      omega

theorem insert_sorted_core (L : List LineRow) (k2 : Nat) (target : LineRow)
    (nid : Nat) (content : String)
    (hkn : k2 < (L.mergeSort lineLe).length)
    (hget : (L.mergeSort lineLe).getD k2 defaultLineRow = target)
    (H1 : (L.map lineKey).Nodup)
    (H2 : ∀ a ∈ L, ∀ b ∈ L, a.mcSort = b.mcSort → a.scSort = b.scSort → a.scId = b.scId)
    (Hsame : ∀ a ∈ L, a.scId = target.scId →
      a.scSort = target.scSort ∧ a.mcSort = target.mcSort) :
    (L.map (lineShift target.scId target.sSort)
      ++ [newLineRow nid content target]).mergeSort lineLe
    = (L.mergeSort lineLe).take k2
      ++ newLineRow nid content target
        :: ((L.mergeSort lineLe).drop k2).map (lineShift target.scId target.sSort) := by
  have hgetelem : (L.mergeSort lineLe)[k2] = target := by
    rw [← List.getD_eq_getElem _ defaultLineRow hkn]
    exact hget
  have htmemLines : target ∈ L.mergeSort lineLe := by
    rw [← hgetelem]
    exact List.getElem_mem hkn
  have hpermL : (L.mergeSort lineLe).Perm L := List.mergeSort_perm L lineLe
  have htmemL : target ∈ L := hpermL.mem_iff.mp htmemLines
  have hlines_le : (L.mergeSort lineLe).Pairwise (fun a b => lineLe a b = true) :=
    List.sorted_mergeSort lineLe_trans lineLe_total L
  have hlines_keys : ((L.mergeSort lineLe).map lineKey).Nodup :=
    ((hpermL.map lineKey).symm).nodup H1
  have hlines_lt : (L.mergeSort lineLe).Pairwise lineLt :=
    pairwise_lineLt_of_le _ hlines_le hlines_keys
  have hdrop : (L.mergeSort lineLe).drop k2
      = target :: (L.mergeSort lineLe).drop (k2 + 1) := by
    rw [List.drop_eq_getElem_cons hkn, hgetelem]
  have hsplit : L.mergeSort lineLe
      = (L.mergeSort lineLe).take k2 ++ target :: (L.mergeSort lineLe).drop (k2 + 1) := by
    conv_lhs => rw [← List.take_append_drop k2 (L.mergeSort lineLe)]
    rw [hdrop]
  have hPsplit : ((L.mergeSort lineLe).take k2
      ++ target :: (L.mergeSort lineLe).drop (k2 + 1)).Pairwise lineLt := by
    rw [← hsplit]
    exact hlines_lt
  rw [List.pairwise_append] at hPsplit
  obtain ⟨PA, PtR, cross⟩ := hPsplit
  rw [List.pairwise_cons] at PtR
  obtain ⟨htR, PR⟩ := PtR
  have hmemA : ∀ a ∈ (L.mergeSort lineLe).take k2, a ∈ L :=
    fun a ha => hpermL.mem_iff.mp (List.mem_of_mem_take ha)
  have hmemD : ∀ a ∈ (L.mergeSort lineLe).drop k2, a ∈ L :=
    fun a ha => hpermL.mem_iff.mp (List.mem_of_mem_drop ha)
  have hkeep : ∀ a ∈ L, lineLt a target →
      lineShift target.scId target.sSort a = a := by
    intro a ha h
    by_cases hc1 : a.scId = target.scId
    · obtain ⟨h1, h2⟩ := Hsame a ha hc1
      apply lineShift_neg
      rintro ⟨_, hge⟩
      simp only [lineLt] at h
      omega
    · exact lineShift_neg _ _ _ (fun hx => hc1 hx.1)
  have hpres : ∀ a ∈ L, ∀ b ∈ L, lineLt a b →
      lineLt (lineShift target.scId target.sSort a)
        (lineShift target.scId target.sSort b) := by
    intro a ha b hb h
    obtain ⟨_, _, pam, pas, _, _, _, _⟩ := lineShift_proj target.scId target.sSort a
    obtain ⟨_, _, pbm, pbs, _, _, _, _⟩ := lineShift_proj target.scId target.sSort b
    have sa := lineShift_sSort target.scId target.sSort a
    have sb := lineShift_sSort target.scId target.sSort b
    by_cases hma : a.mcSort = b.mcSort
    · by_cases hsa2 : a.scSort = b.scSort
      · have hid := H2 a ha b hb hma hsa2
        simp only [lineLt] at h ⊢
        rw [pam, pas, pbm, pbs]
        omega
      · simp only [lineLt] at h ⊢
        rw [pam, pas, pbm, pbs]
        omega
    · simp only [lineLt] at h ⊢
      rw [pam, pas, pbm, pbs]
      omega
  have hmsmap : (L.mergeSort lineLe).map (lineShift target.scId target.sSort)
      = (L.mergeSort lineLe).take k2
        ++ ((L.mergeSort lineLe).drop k2).map (lineShift target.scId target.sSort) := by
    conv_lhs => rw [hsplit]
    rw [List.map_append]
    have htake : ((L.mergeSort lineLe).take k2).map (lineShift target.scId target.sSort)
        = (L.mergeSort lineLe).take k2 := by
      have h1 : ∀ a ∈ (L.mergeSort lineLe).take k2,
          lineShift target.scId target.sSort a = a := fun a ha =>
        hkeep a (hmemA a ha) (cross a ha target (List.mem_cons_self _ _))
      calc ((L.mergeSort lineLe).take k2).map (lineShift target.scId target.sSort)
          = ((L.mergeSort lineLe).take k2).map id := List.map_congr_left h1
        _ = (L.mergeSort lineLe).take k2 := List.map_id _
    rw [htake, hdrop]
  have p1 : (L.map (lineShift target.scId target.sSort)
      ++ [newLineRow nid content target]).Perm
      (((L.mergeSort lineLe).map (lineShift target.scId target.sSort))
        ++ [newLineRow nid content target]) :=
    List.Perm.append_right _ ((hpermL.map (lineShift target.scId target.sSort)).symm)
  rw [hmsmap] at p1
  have p2 : (((L.mergeSort lineLe).take k2
      ++ ((L.mergeSort lineLe).drop k2).map (lineShift target.scId target.sSort))
      ++ [newLineRow nid content target]).Perm
      ((L.mergeSort lineLe).take k2
        ++ newLineRow nid content target
          :: ((L.mergeSort lineLe).drop k2).map (lineShift target.scId target.sSort)) := by
    rw [List.append_assoc]
    exact List.Perm.append_left _ (List.perm_append_singleton _ _)
  have hpermE := p1.trans p2
  have PD : ((L.mergeSort lineLe).drop k2).Pairwise lineLt := by
    rw [hdrop, List.pairwise_cons]
    exact ⟨htR, PR⟩
  have hsortE : ((L.mergeSort lineLe).take k2
      ++ newLineRow nid content target
        :: ((L.mergeSort lineLe).drop k2).map
            (lineShift target.scId target.sSort)).Pairwise lineLt := by
    rw [List.pairwise_append]
    refine ⟨PA, ?_, ?_⟩
    · rw [List.pairwise_cons]
      constructor
      · intro b hb
        rw [List.mem_map] at hb
        obtain ⟨m, hm, rfl⟩ := hb
        rw [hdrop, List.mem_cons] at hm
        rcases hm with rfl | hmR
        · rw [lineShift_pos _ _ m rfl (le_refl _)]
          refine Or.inr ⟨rfl, Or.inr ⟨rfl, ?_⟩⟩
          show m.sSort < m.sSort + 1
          omega
        · have h1 : lineLt target m := htR m hmR
          have h2 : lineLt target (lineShift target.scId target.sSort m) :=
            lineLt_shift_right _ _ h1
          exact lineLt_key (lineKey_newLineRow nid content target).symm rfl h2
      · rw [List.pairwise_map]
        refine List.Pairwise.imp_of_mem ?_ PD
        intro a b ha hb h
        exact hpres a (hmemD a ha) b (hmemD b hb) h
    · intro a ha b hb
      have haL := hmemA a ha
      have hat : lineLt a target := cross a ha target (List.mem_cons_self _ _)
      rw [List.mem_cons] at hb
      rcases hb with rfl | hbM
      · exact lineLt_key rfl (lineKey_newLineRow nid content target).symm hat
      · rw [List.mem_map] at hbM
        obtain ⟨m, hm, rfl⟩ := hbM
        rw [hdrop, List.mem_cons] at hm
        rcases hm with rfl | hmR
        · exact lineLt_shift_right _ _ hat
        · exact lineLt_shift_right _ _ (cross a ha m (List.mem_cons_of_mem _ hmR))
  have hsortLHS : ((L.map (lineShift target.scId target.sSort)
      ++ [newLineRow nid content target]).mergeSort lineLe).Pairwise lineLt := by
    refine pairwise_lineLt_of_le _ (List.sorted_mergeSort lineLe_trans lineLe_total _) ?_
    have hperm2 := (List.mergeSort_perm (L.map (lineShift target.scId target.sSort)
      ++ [newLineRow nid content target]) lineLe).map lineKey
    exact hperm2.symm.nodup (shifted_keys_nodup L target htmemL nid content H1 H2)
  exact List.eq_of_perm_of_sorted
    ((List.mergeSort_perm _ lineLe).trans hpermE) hsortLHS hsortE

/-- C2: for a project whose flattened line sequence (`get_all_lines`,
the three-table join ordered by the heading/subheading/sentence
`sort_order` triple) has `T` lines, and a line number `k` with
`1 <= k <= T`, `insert_sentence(k, content, project)` succeeds and
returns the new sentence's id; the new sentence enters the target line's
subheading at the target's `sort_order`, every sentence of that
subheading whose `sort_order` was `>=` the target's is shifted up by one,
the new flattened sequence is exactly the old one with the new line
placed at position `k` (every line formerly at `k..T` now at `k+1..T+1`,
unchanged except for the within-subheading shift), and the call fails
with no insertion when `k < 1` or `k > T`.  Hypotheses: the project's
joined rows have pairwise distinct `sort_order` key triples, equal
heading/subheading positions imply the same subheading, and subheading
and heading ids are unique (all guaranteed by the schema's PRIMARY KEYs
and the density invariant). -/
theorem c2_insert_sentence_positional (db : DB) (pid : Nat) (k : Int) (content : String)
    (target : LineRow)
    (htar : (Database.get_all_lines db pid).getD (k.toNat - 1) defaultLineRow = target)
    (hk1 : 1 ≤ k) (hk2 : k ≤ ((Database.get_all_lines db pid).length : Int))
    (H1 : ((Database.joined_lines db pid).map lineKey).Nodup)
    (H2 : ∀ a ∈ Database.joined_lines db pid, ∀ b ∈ Database.joined_lines db pid,
        a.mcSort = b.mcSort → a.scSort = b.scSort → a.scId = b.scId)
    (Hsub : (db.subs.map (fun u => u.id)).Nodup)
    (Hcat : (db.cats.map (fun u => u.id)).Nodup) :
    (Database.insert_sentence db k content pid).2 = some db.nextSentId ∧
    (Database.insert_sentence db k content pid).1.sents
      = db.sents.map (fun x =>
          if x.subId == target.scId && x.sortOrder ≥ target.sSort then
            { x with sortOrder := x.sortOrder + 1 } else x)
        ++ [⟨db.nextSentId, target.scId, content, target.sSort⟩] ∧
    Database.get_all_lines (Database.insert_sentence db k content pid).1 pid
      = (Database.get_all_lines db pid).take (k.toNat - 1)
        ++ newLineRow db.nextSentId content target
          :: ((Database.get_all_lines db pid).drop (k.toNat - 1)).map
              (lineShift target.scId target.sSort) ∧
    (Database.get_all_lines (Database.insert_sentence db k content pid).1 pid).map
        (fun r => (r.sid, r.content))
      = ((Database.get_all_lines db pid).map (fun r => (r.sid, r.content))).take (k.toNat - 1)
        ++ (db.nextSentId, content)
          :: ((Database.get_all_lines db pid).map
              (fun r => (r.sid, r.content))).drop (k.toNat - 1) ∧
    (∀ j : Int, j < 1 ∨ ((Database.get_all_lines db pid).length : Int) < j →
      Database.insert_sentence db j content pid = (db, none)) := by
  have hcond : ¬(k < 1 ∨ ((Database.get_all_lines db pid).length : Int) < k) := by
    rintro (h | h) <;> omega
  have hkn : k.toNat - 1 < (Database.get_all_lines db pid).length := by
    omega
  have hins1 : (Database.insert_sentence db k content pid).1 = { db with
      sents := db.sents.map (fun x =>
        if x.subId == target.scId && x.sortOrder ≥ target.sSort then
          { x with sortOrder := x.sortOrder + 1 } else x)
        ++ [⟨db.nextSentId, target.scId, content, target.sSort⟩],
      nextSentId := db.nextSentId + 1 } := by
    simp only [Database.insert_sentence]
    rw [if_neg hcond, htar]
  have hins2 : (Database.insert_sentence db k content pid).2 = some db.nextSentId := by
    simp only [Database.insert_sentence]
    rw [if_neg hcond]
  have htarmem : target ∈ Database.joined_lines db pid := by
    have hmem : target ∈ Database.get_all_lines db pid := by
      rw [← htar, List.getD_eq_getElem _ _ hkn]
      exact List.getElem_mem hkn
    exact (List.mergeSort_perm (Database.joined_lines db pid) lineLe).mem_iff.mp hmem
  have hjoined : Database.joined_lines (Database.insert_sentence db k content pid).1 pid
      = (Database.joined_lines db pid).map (lineShift target.scId target.sSort)
        ++ [newLineRow db.nextSentId content target] := by
    rw [hins1]
    show ((db.sents.map (fun (x : SentRow) =>
        if x.subId == target.scId && x.sortOrder ≥ target.sSort then
          { x with sortOrder := x.sortOrder + 1 } else x)
        ++ ([⟨db.nextSentId, target.scId, content, target.sSort⟩] : List SentRow)).flatMap
          (sentLines db pid)) = _
    rw [List.flatMap_append, joined_shift db pid target.scId target.sSort,
      List.flatMap_cons, List.flatMap_nil, List.append_nil,
      sentLines_fresh db pid target htarmem Hsub Hcat db.nextSentId content]
    rfl
  have Hsame : ∀ a ∈ Database.joined_lines db pid, a.scId = target.scId →
      a.scSort = target.scSort ∧ a.mcSort = target.mcSort :=
    fun a ha h => joined_same_sub db pid Hsub Hcat a ha target htarmem h
  have hcore := insert_sorted_core (Database.joined_lines db pid) (k.toNat - 1) target
    db.nextSentId content hkn htar H1 H2 Hsame
  have hmain : Database.get_all_lines (Database.insert_sentence db k content pid).1 pid
      = (Database.get_all_lines db pid).take (k.toNat - 1)
        ++ newLineRow db.nextSentId content target
          :: ((Database.get_all_lines db pid).drop (k.toNat - 1)).map
              (lineShift target.scId target.sSort) := by
    show (Database.joined_lines (Database.insert_sentence db k content pid).1 pid).mergeSort
        lineLe = _
    rw [hjoined]
    exact hcore
  refine ⟨hins2, by rw [hins1], hmain, ?_, ?_⟩
  · rw [hmain, List.map_append, List.map_cons, List.map_map]
    have hco : ((Database.get_all_lines db pid).drop (k.toNat - 1)).map
        ((fun r => (r.sid, r.content)) ∘ lineShift target.scId target.sSort)
        = ((Database.get_all_lines db pid).drop (k.toNat - 1)).map
            (fun r => (r.sid, r.content)) := by
      refine List.map_congr_left (fun r hr => ?_)
      obtain ⟨p1, p2, _, _, _, _, _, _⟩ := lineShift_proj target.scId target.sSort r
      rw [Function.comp_apply, p1, p2]
    rw [hco, List.map_take, List.map_drop]
    rfl
  · intro j hj
    simp only [Database.insert_sentence]
    rw [if_pos hj]

/-- C2 (witness): inserting "X" before line 2 of the two-line fixture
succeeds with the fresh id 3 and yields the flattened sequence
a, X, b. -/
theorem c2_witness :
    (1 : Int) ≤ 2 ∧
    (2 : Int) ≤ ((Database.get_all_lines fixtureTwoSents 1).length : Int) ∧
    (Database.insert_sentence fixtureTwoSents 2 "X" 1).2 = some 3 ∧
    (Database.get_all_lines (Database.insert_sentence fixtureTwoSents 2 "X" 1).1 1).map
        (fun r => (r.sid, r.content))
      = [(1, "a"), (3, "X"), (2, "b")] := by
  have hlines : Database.get_all_lines fixtureTwoSents 1
      = [⟨1, 1, "H", 1, "", "a", 1, 1, 1⟩, ⟨2, 1, "H", 1, "", "b", 1, 1, 2⟩] := by
    simp [Database.get_all_lines, Database.joined_lines, fixtureTwoSents,
      List.mergeSort, lineLe]
  have h := c2_insert_sentence_positional fixtureTwoSents 1 2 "X"
    ⟨2, 1, "H", 1, "", "b", 1, 1, 2⟩
    (by rw [hlines]; rfl)
    (by decide)
    (by rw [hlines]; decide)
    (by decide)
    (by decide)
    (by decide)
    (by decide)
  refine ⟨by decide, by rw [hlines]; decide, h.1, ?_⟩
  rw [h.2.2.2.1, hlines]
  decide
